import Mathlib

/-!
Verification development for the tuicub game server.

This file shallowly embeds the parts of the code base that the checked
claims are about:

* `models/game.py` — `Tileset`, `Pile`, `Board`, `Player`, `Move`, `Turn`,
  `GameState`, `Game` and their engine operations;
* `services/game_toolkit.py` — `perform_move`, `ensure_board_valid`,
  `ensure_meld_valid`, `create_game`;
* `services/games.py` — the `GamesService` operations `move`, `undo`,
  `redo`, `end_turn`, `draw`, `disconnect`;
* `services/tilesets.py` — dictionary–based tileset validity and value;
* `services/gamerooms.py` — `start_game`;
* `events/server.py` — `connection_on_data`;
* `common/utils.py` — `parse_token`, `is_host_valid`;
* `services/auth.py` — `authorize`.

Conventions of the embedding:

* UUIDs become `Nat`; a freshly generated `uuid.uuid4()` that no code path
  ever reads back is modelled as the constant `0` (move and turn ids), or as
  a position-derived fresh number where distinctness matters (player ids).
* Python strings become `List Char` in the header-parsing and host-validation
  code (so that the character-level operations compute), and `String`
  elsewhere.
* The mutable `Pile` wrapper over `list[int]` becomes a plain `List Nat`
  threaded functionally; in-place mutation is modelled by rebuilding the
  record, following the aliasing of the source (for example the pile mutated
  by `return_rack` is shared by the game state both before and after the
  `evolve` call).
* Randomness (`RngService.pick` / `RngService.shuffle`) is passed in as
  function parameters; theorems assume only what the library guarantees
  (`pick` returns a member of a non-empty sequence, `shuffle` returns a
  permutation).
* Raised exceptions become `Except Err`; each named `TuicubError` subclass
  is one constructor, and the generic Python `ValueError` / `IndexError` /
  `SequenceEmptyError` that can escape the engine get constructors of their
  own.
-/

namespace Tuicub

/-- Error outcomes of the embedded operations.  The first block mirrors the
named `TuicubError` subclasses (`error_name` strings in the source); the last
three model raw Python exceptions that are not `TuicubError`s. -/
inductive Err where
  | game_ended
  | user_not_in_game
  | not_user_turn
  | duplicate_tiles
  | missing_board_tiles
  | new_tiles_not_from_rack
  | no_move_to_undo
  | no_move_to_redo
  | no_moves_performed
  | moves_performed
  | player_not_found
  | not_enough_players
  | no_new_tiles
  | invalid_tilesets
  | invalid_meld
  | unauthorized
  | not_gameroom_owner
  | game_already_started
  | sequence_empty
  | value_error
  | index_error
deriving DecidableEq, Repr

instance {ε α : Type} [DecidableEq ε] [DecidableEq α] : DecidableEq (Except ε α) :=
  fun a b =>
    match a, b with
    | .ok a, .ok b =>
      if h : a = b then isTrue (by rw [h]) else isFalse (fun he => h (by injection he))
    | .ok _, .error _ => isFalse (fun he => by injection he)
    | .error _, .ok _ => isFalse (fun he => by injection he)
    | .error e, .error f =>
      if h : e = f then isTrue (by rw [h]) else isFalse (fun he => h (by injection he))

/-- Jokers are the tile ids 104 and 105 (`JOKERS` in `models/game.py`). -/
def JOKERS : List Nat := [104, 105]

/-- Python `sorted` on a list of tile ids. -/
def pySorted (l : List Nat) : List Nat := List.insertionSort (· ≤ ·) l

/-- Python `list(set(a).difference(b))` followed by nothing: the set of
elements of `a` not in `b`, listed without duplicates (first-occurrence
order stands in for the arbitrary iteration order of a Python set; every
use in the source either sorts the result, treats it as a set, or only
asks whether it is empty). -/
def pySetDiff (a b : List Nat) : List Nat :=
  a.dedup.filter (fun t => decide (t ∉ b))

/-- `Tileset` from `models/game.py`: a set of tiles held as a tuple of ids. -/
structure Tileset where
  tiles : List Nat := []
deriving DecidableEq, Repr

/-- `Tileset.create`: build a tileset from a list of ids, sorting them. -/
def Tileset.create (tiles : List Nat) : Tileset :=
  ⟨pySorted tiles⟩

/-- `Tileset.contains_jokers`. -/
def Tileset.contains_jokers (ts : Tileset) : Bool :=
  ts.tiles.any (fun t => decide (t ∈ JOKERS))

/-- `Tileset.filter_jokers`: the tiles that are not jokers. -/
def Tileset.filter_jokers (ts : Tileset) : List Nat :=
  ts.tiles.filter (fun t => decide (t ∉ JOKERS))

/-- `Tileset.jokers_count`. -/
def Tileset.jokers_count (ts : Tileset) : Nat :=
  (ts.tiles.filter (fun t => decide (t ∈ JOKERS))).length

/-- `Tileset.with_new_tile`: add a tile and re-sort. -/
def Tileset.with_new_tile (ts : Tileset) (tile : Nat) : Tileset :=
  Tileset.create (ts.tiles ++ [tile])

/-- `Board` from `models/game.py`: the ordered played tilesets. -/
structure Board where
  tilesets : List Tileset := []
deriving DecidableEq, Repr

/-- `Board.create` from a list of lists of tile ids. -/
def Board.create (tilesets : List (List Nat)) : Board :=
  ⟨tilesets.map Tileset.create⟩

/-- `Board.all_tiles`: flattened list of the tile ids on the board. -/
def Board.all_tiles (b : Board) : List Nat :=
  (b.tilesets.map Tileset.tiles).flatten

/-- `Player` from `models/game.py`. -/
structure Player where
  id : Nat
  name : String
  rack : Tileset
  user_id : Nat
deriving DecidableEq, Repr

/-- `Player.with_rack`. -/
def Player.with_rack (p : Player) (rack : Tileset) : Player :=
  { p with rack := rack }

/-- `Move` from `models/game.py`: a snapshot of board and rack at one
revision within a turn. -/
structure Move where
  id : Nat
  board : Board
  rack : Tileset
  revision : Nat
  turn_id : Nat
deriving DecidableEq, Repr

/-- `Turn` from `models/game.py`. -/
structure Turn where
  id : Nat
  game_id : Nat
  player_id : Nat
  starting_rack : Tileset
  starting_board : Board
  moves : List Move := []
  revision : Nat := 0
deriving DecidableEq, Repr

/-- `Turn.with_new_move`: drop the moves above the current revision, append
a move at revision + 1, and bump the revision. -/
def Turn.with_new_move (t : Turn) (rack : Tileset) (board : Board) : Turn :=
  let move : Move :=
    { id := 0, turn_id := t.id, revision := t.revision + 1, rack := rack, board := board }
  { t with
    moves := (t.moves.filter (fun mv => decide (mv.revision ≤ t.revision))) ++ [move],
    revision := t.revision + 1 }

/-- `Turn.previous_move`: `none` when the revision is exactly 1, otherwise
the move whose revision is `revision - 1` (integer arithmetic, as in the
source), failing with `no_move_to_undo` when absent. -/
def Turn.previous_move (t : Turn) : Except Err (Option Move) :=
  if t.revision = 1 then .ok none
  else
    match t.moves.find? (fun mv => decide ((mv.revision : Int) = (t.revision : Int) - 1)) with
    | some mv => .ok (some mv)
    | none => .error .no_move_to_undo

/-- `Turn.next_move`: the move whose revision is `revision + 1`, failing
with `no_move_to_redo` when absent. -/
def Turn.next_move (t : Turn) : Except Err Move :=
  match t.moves.find? (fun mv => decide (mv.revision = t.revision + 1)) with
  | some mv => .ok mv
  | none => .error .no_move_to_redo

/-- `Turn.with_revision`. -/
def Turn.with_revision (t : Turn) (revision : Nat) : Turn :=
  { t with revision := revision }

/-- `GameState` from `models/game.py`; the `Pile` wrapper is inlined as the
list of undealt tile ids. -/
structure GameState where
  id : Nat
  game_id : Nat
  players : List Player
  board : Board
  pile : List Nat
deriving DecidableEq, Repr

/-- Replace the first player with the id of `p` by `p` (the
`players[player_index] = player` update of `with_updated_player`). -/
def replaceFirstById : List Player → Player → List Player
  | [], _ => []
  | q :: rest, p => if q.id = p.id then p :: rest else q :: replaceFirstById rest p

/-- `GameState.with_updated_player`: replace the player at the first index
with a matching id; `player_not_found` when the id is absent. -/
def GameState.with_updated_player (gs : GameState) (p : Player) : Except Err GameState :=
  if gs.players.any (fun q => decide (q.id = p.id)) then
    .ok { gs with players := replaceFirstById gs.players p }
  else .error .player_not_found

/-- `GameState.with_board`. -/
def GameState.with_board (gs : GameState) (board : Board) : GameState :=
  { gs with board := board }

/-- `Game` from `models/game.py`. -/
structure Game where
  id : Nat
  gameroom_id : Nat
  game_state : GameState
  turn : Turn
  turn_order : List Nat
  made_meld : List Nat := []
  winner : Option Player := none
deriving DecidableEq, Repr

/-- `Game.new_tiles`: ids on the current board but not on the starting
board of the turn (a Python set difference). -/
def Game.new_tiles (g : Game) : List Nat :=
  pySetDiff g.game_state.board.all_tiles g.turn.starting_board.all_tiles

/-- `Game.player_for_user_id`: the first player of the given user, failing
with `user_not_in_game`. -/
def Game.player_for_user_id (g : Game) (user_id : Nat) : Except Err Player :=
  match g.game_state.players.find? (fun p => decide (p.user_id = user_id)) with
  | some p => .ok p
  | none => .error .user_not_in_game

/-- Python `tuple.index`: the first index of the value, `None` standing in
for the raised `ValueError`. -/
def pyIndex : List Nat → Nat → Option Nat
  | [], _ => none
  | x :: rest, a => if x = a then some 0 else (pyIndex rest a).map (· + 1)

/-- `Game.player_after`: the player next in the cyclic turn order.
`more_itertools.first`/`last` on an empty tuple and `tuple.index` on a
missing value raise `ValueError`; `turn_order[index + 1]` out of range
raises `IndexError`. -/
def Game.player_after (g : Game) (p : Player) : Except Err Player :=
  match g.turn_order.getLast? with
  | none => .error .value_error
  | some lastUid =>
    if lastUid = p.user_id then
      match g.turn_order.head? with
      | none => .error .value_error
      | some u => g.player_for_user_id u
    else
      match pyIndex g.turn_order p.user_id with
      | none => .error .value_error
      | some i =>
        match g.turn_order[i + 1]? with
        | none => .error .index_error
        | some uid => g.player_for_user_id uid

/-- `Game.with_new_move` on the game: update the acting player rack, set
the board, and push the move onto the turn ledger. -/
def Game.with_new_move (g : Game) (rack : Tileset) (board : Board) (p : Player) :
    Except Err Game := do
  let gs ← g.game_state.with_updated_player (p.with_rack rack)
  .ok { g with
        game_state := gs.with_board board,
        turn := g.turn.with_new_move rack board }

/-- `Game.with_next_turn`: the acting player wins when their rack is empty;
otherwise a fresh turn is started for the next player in the turn order. -/
def Game.with_next_turn (g : Game) (current_player : Player) : Except Err Game :=
  if current_player.rack.tiles = [] then
    .ok { g with winner := some current_player }
  else do
    let next ← g.player_after current_player
    .ok { g with
          turn := { id := 0, game_id := g.id, player_id := next.id,
                    starting_rack := next.rack, starting_board := g.game_state.board,
                    moves := [], revision := 0 } }

/-- `Game.with_undo`: restore the previous snapshot (the starting board and
rack when the revision was 1). -/
def Game.with_undo (g : Game) (p : Player) : Except Err Game := do
  let mv ← g.turn.previous_move
  match mv with
  | none => do
    let gs ← g.game_state.with_updated_player (p.with_rack g.turn.starting_rack)
    .ok { g with
          game_state := gs.with_board g.turn.starting_board,
          turn := g.turn.with_revision 0 }
  | some mv => do
    let gs ← g.game_state.with_updated_player (p.with_rack mv.rack)
    .ok { g with
          game_state := gs.with_board mv.board,
          turn := g.turn.with_revision mv.revision }

/-- `Game.with_redo`: restore the snapshot of the next move. -/
def Game.with_redo (g : Game) (p : Player) : Except Err Game := do
  let mv ← g.turn.next_move
  let gs ← g.game_state.with_updated_player (p.with_rack mv.rack)
  .ok { g with
        game_state := gs.with_board mv.board,
        turn := g.turn.with_revision mv.revision }

/-- `Game.with_drawn_tile`: put the drawn tile on the player rack. -/
def Game.with_drawn_tile (g : Game) (tile : Nat) (p : Player) : Except Err Game := do
  let gs ← g.game_state.with_updated_player (p.with_rack (p.rack.with_new_tile tile))
  .ok { g with game_state := gs }

/-- `Game.with_disconnected_player`: remove the player; with a single
player left that player wins (the rack is not returned); otherwise the rack
is shuffled back into the pile and, when the leaver held the turn, the
board reverts to the starting board and a fresh turn starts for the next
player of the original turn order. -/
def Game.with_disconnected_player (g : Game) (p : Player)
    (shuffle : List Nat → List Nat) : Except Err (Game × Option Turn) :=
  let players := g.game_state.players.filter (fun q => decide (q.id ≠ p.id))
  let gs := { g.game_state with players := players }
  if players.length = 1 then
    match players.head? with
    | some w => .ok ({ g with game_state := gs, winner := some w }, none)
    | none => .error .value_error
  else
    let pile := shuffle (g.game_state.pile ++ p.rack.tiles)
    let gs := { gs with pile := pile }
    let turn_order := g.turn_order.filter (fun uid => decide (uid ≠ p.user_id))
    if g.turn.player_id = p.id then do
      let next ← g.player_after p
      let turn : Turn := { id := 0, game_id := g.id, player_id := next.id,
                           starting_rack := next.rack,
                           starting_board := g.turn.starting_board,
                           moves := [], revision := 0 }
      .ok ({ g with
             turn := turn,
             game_state := { gs with board := g.turn.starting_board },
             turn_order := turn_order }, some turn)
    else
      .ok ({ g with game_state := gs, turn_order := turn_order }, none)

/-! ### `services/tilesets.py`

The dictionary of legal joker-free tilesets is the `valid_tilesets`
parameter of `TilesetsService` (a frozen set of sorted tuples loaded from a
file); it is modelled as a `List (List Nat)` parameter.  The two bounded
caches are transparent memoization and are not modelled. -/

/-- `tileset_value` from `services/tilesets.py`. -/
def tileset_value (tileset : List Nat) : Nat :=
  (tileset.map (fun t => t % 13 + 1)).sum

/-- `TilesetsService._is_valid` (and hence `is_valid`, the caches being
transparent): with jokers, some dictionary entry of the right size contains
every non-joker tile; without jokers, membership of the sorted tuple. -/
def is_valid (dict : List (List Nat)) (ts : Tileset) : Bool :=
  if ts.contains_jokers then
    dict.any (fun d =>
      decide ((d.length : Int) - (ts.jokers_count : Int) = (ts.filter_jokers.length : Int)) &&
      ts.filter_jokers.all (fun t => decide (t ∈ d)))
  else decide (pySorted ts.tiles ∈ dict)

/-- `TilesetsService.value_of` / `_value_of`: 0 for an invalid tileset,
the plain value sum without jokers, and the best matching dictionary entry
value with jokers (`max` over a non-empty set in the source; the fold
returns 0 on the empty list, which the validity guard makes unreachable). -/
def value_of (dict : List (List Nat)) (ts : Tileset) : Nat :=
  if ¬ is_valid dict ts then 0
  else if ts.contains_jokers then
    let matching := dict.filter (fun d =>
      decide ((d.length : Int) - (ts.jokers_count : Int) = (ts.filter_jokers.length : Int)) &&
      ts.filter_jokers.all (fun t => decide (t ∈ d)))
    (matching.map tileset_value).foldl max 0
  else tileset_value ts.tiles

/-! ### `services/game_toolkit.py` -/

/-- `_ensure_no_duplicate_tiles` / `_ensure_has_all_previous_tiles` /
`_ensure_all_new_tiles_from_rack` followed by the rack update of
`GameToolkit.perform_move`. -/
def perform_move (rack : Tileset) (current candidate : Board) :
    Except Err (Tileset × Board) :=
  if ¬ candidate.all_tiles.Nodup then .error .duplicate_tiles
  else if ¬ (∀ t ∈ current.all_tiles, t ∈ candidate.all_tiles) then
    .error .missing_board_tiles
  else if ¬ (∀ t ∈ pySetDiff candidate.all_tiles current.all_tiles, t ∈ rack.tiles) then
    .error .new_tiles_not_from_rack
  else
    let new_tiles := pySetDiff candidate.all_tiles current.all_tiles
    .ok (Tileset.create (pySetDiff rack.tiles new_tiles), candidate)

/-- `GameToolkit.ensure_board_valid`: the `perform_move` checks against the
starting board and starting rack, plus at least one new tile and validity
of every tileset on the board. -/
def ensure_board_valid (dict : List (List Nat)) (g : Game) : Except Err Unit :=
  let rack := g.turn.starting_rack
  let current := g.game_state.board
  let previous := g.turn.starting_board
  if ¬ current.all_tiles.Nodup then .error .duplicate_tiles
  else if ¬ (∀ t ∈ previous.all_tiles, t ∈ current.all_tiles) then
    .error .missing_board_tiles
  else if ¬ (∀ t ∈ pySetDiff current.all_tiles previous.all_tiles, t ∈ rack.tiles) then
    .error .new_tiles_not_from_rack
  else if pySetDiff current.all_tiles previous.all_tiles = [] then .error .no_new_tiles
  else if ¬ (∀ ts ∈ current.tilesets, is_valid dict ts = true) then
    .error .invalid_tilesets
  else .ok ()

/-- Python `frozenset` equality of two tile lists. -/
def setEqL (a b : List Nat) : Bool :=
  a.all (fun t => decide (t ∈ b)) && b.all (fun t => decide (t ∈ a))

/-- Keep one representative of every `frozenset`-equal class (models
building a `frozenset` of `frozenset`s from a list of tile sets). -/
def dedupBySetEq : List (List Nat) → List (List Nat)
  | [] => []
  | x :: rest => x :: (dedupBySetEq rest).filter (fun y => ! setEqL x y)

/-- `GameToolkit.ensure_meld_valid`: the tilesets on the current board that
are not (as id-sets) on the previous board must come from the rack and have
combined value at least `MIN_MELD_VALUE = 30`. -/
def ensure_meld_valid (dict : List (List Nat)) (rack : Tileset)
    (current previous : Board) : Except Err Unit :=
  let new_tilesets := dedupBySetEq
    ((current.tilesets.map (fun ts => ts.tiles.dedup)).filter
      (fun ts => ! previous.tilesets.any (fun ps => setEqL ps.tiles.dedup ts)))
  let new_tilesets_tiles := new_tilesets.flatten
  if ¬ (∀ t ∈ new_tilesets_tiles, t ∈ rack.tiles) then .error .invalid_meld
  else if (new_tilesets.map (fun ts => value_of dict (Tileset.create ts))).sum < 30 then
    .error .invalid_meld
  else .ok ()

/-! ### `services/games.py` — `GamesService`

The repository round-trips (`get_game_by_id` / `save_game`) are identity on
the domain objects and are elided: each service operation takes the loaded
`Game` and the id of the authenticated user. -/

/-- `GamesService._ensure_game_player`: game not ended, user has a player,
player holds the turn. -/
def GamesService.ensure_game_player (g : Game) (user_id : Nat) : Except Err Player :=
  if g.winner.isSome then .error .game_ended
  else do
    let p ← g.player_for_user_id user_id
    if p.id ≠ g.turn.player_id then .error .not_user_turn
    else .ok p

/-- `GamesService.move`. -/
def GamesService.move (g : Game) (user_id : Nat) (board : List (List Nat)) :
    Except Err Game := do
  let p ← GamesService.ensure_game_player g user_id
  let (new_rack, new_board) ← perform_move p.rack g.game_state.board (Board.create board)
  g.with_new_move new_rack new_board p

/-- `GamesService.undo`. -/
def GamesService.undo (g : Game) (user_id : Nat) : Except Err Game := do
  let p ← GamesService.ensure_game_player g user_id
  g.with_undo p

/-- `GamesService.redo`. -/
def GamesService.redo (g : Game) (user_id : Nat) : Except Err Game := do
  let p ← GamesService.ensure_game_player g user_id
  g.with_redo p

/-- `GamesService.end_turn`. -/
def GamesService.end_turn (dict : List (List Nat)) (g : Game) (user_id : Nat) :
    Except Err Game := do
  let p ← GamesService.ensure_game_player g user_id
  if g.turn.revision = 0 then .error .no_moves_performed
  else do
    let _ ← ensure_board_valid dict g
    let g ←
      if ¬ g.made_meld.contains user_id then do
        let _ ← ensure_meld_valid dict g.turn.starting_rack g.game_state.board
          g.turn.starting_board
        pure { g with made_meld := g.made_meld ++ [user_id] }
      else pure g
    g.with_next_turn p

/-- `GamesService.draw`: `Turn.ensure_has_no_moves`, then draw one tile from
the pile (`RngService.pick` raises `SequenceEmptyError` on an empty pile),
add it to the rack and advance the turn with the pre-draw player object. -/
def GamesService.draw (g : Game) (user_id : Nat) (pick : List Nat → Nat) :
    Except Err (Nat × Game) := do
  let p ← GamesService.ensure_game_player g user_id
  if 0 < g.turn.revision then .error .moves_performed
  else if g.game_state.pile = [] then .error .sequence_empty
  else do
    let tile := pick g.game_state.pile
    let g := { g with game_state :=
      { g.game_state with pile := g.game_state.pile.erase tile } }
    let g ← g.with_drawn_tile tile p
    let g ← g.with_next_turn p
    .ok (tile, g)

/-- `GamesService.disconnect`. -/
def GamesService.disconnect (g : Game) (user_id : Nat)
    (shuffle : List Nat → List Nat) : Except Err (Game × Option Turn) := do
  if g.winner.isSome then .error .game_ended
  else do
    let p ← g.player_for_user_id user_id
    g.with_disconnected_player p shuffle

/-! ### `models/gameroom.py` and `services/gamerooms.py` (start path) -/

/-- `GameroomStatus` from `models/status.py`. -/
inductive GameroomStatus where
  | starting
  | running
  | finished
  | deleted
deriving DecidableEq, Repr

/-- `User` from `models/user.py` (the fields the start path reads). -/
structure GUser where
  id : Nat
  name : String
deriving DecidableEq, Repr

/-- `Gameroom` from `models/gameroom.py` (the fields the start path reads). -/
structure Gameroom where
  id : Nat
  name : String
  owner_id : Nat
  users : List GUser
  status : GameroomStatus := .starting
deriving DecidableEq, Repr

/-- `Pile.draw` iterated `n` times (`Pile.draw_rack` uses `n = 14`): each
draw picks a tile from the remaining pile and removes its first occurrence
(`list.remove`). -/
def drawTiles (pick : List Nat → Nat) : Nat → List Nat → Except Err (List Nat × List Nat)
  | 0, pile => .ok ([], pile)
  | n + 1, pile =>
    if pile = [] then .error .sequence_empty
    else do
      let t := pick pile
      let (ts, pile') ← drawTiles pick n (pile.erase t)
      .ok (t :: ts, pile')

/-- `GameToolkit._create_players` before the shuffle: one player per user in
order, racks of 14 tiles drawn successively from the shared pile (the rack
tuple is not sorted).  `uuid.uuid4()` player ids are modelled as fresh
position-derived numbers. -/
def createPlayers (pick : List Nat → Nat) :
    List GUser → Nat → List Nat → Except Err (List Player × List Nat)
  | [], _, pile => .ok ([], pile)
  | u :: us, k, pile => do
    let (ts, pile') ← drawTiles pick 14 pile
    let (ps, pile'') ← createPlayers pick us (k + 1) pile'
    .ok ({ id := 1000000 + k, name := u.name, rack := ⟨ts⟩, user_id := u.id } :: ps, pile'')

/-- `TILE_IDS = list(range(106))`. -/
def TILE_IDS : List Nat := List.range 106

/-- `GameToolkit.create_game`: reject exactly one user, shuffle the deck
into the pile, deal racks, shuffle the players, and build the game with the
first shuffled player holding the first turn (`players[0]` raises
`IndexError` on an empty tuple). -/
def create_game (shuffleT : List Nat → List Nat) (shuffleP : List Player → List Player)
    (pick : List Nat → Nat) (gameroom : Gameroom) : Except Err Game :=
  if gameroom.users.length = 1 then .error .not_enough_players
  else do
    let pile0 := shuffleT TILE_IDS
    let (raw, pile) ← createPlayers pick gameroom.users 0 pile0
    let players := shuffleP raw
    match players with
    | [] => .error .index_error
    | p0 :: _ =>
      .ok { id := 0, gameroom_id := gameroom.id,
            game_state := { id := 0, game_id := 0, players := players,
                            board := ⟨[]⟩, pile := pile },
            turn := { id := 0, game_id := 0, player_id := p0.id,
                      starting_rack := p0.rack, starting_board := ⟨[]⟩,
                      moves := [], revision := 0 },
            turn_order := players.map Player.user_id,
            made_meld := [], winner := none }

/-- `GameroomsService.start_game`: owner check (`ensure_is_owner`), status
check (`ensure_starting`), then `create_game`. -/
def start_game (shuffleT : List Nat → List Nat) (shuffleP : List Player → List Player)
    (pick : List Nat → Nat) (gameroom : Gameroom) (user_id : Nat) : Except Err Game :=
  if gameroom.owner_id ≠ user_id then .error .not_gameroom_owner
  else if gameroom.status ≠ .starting then .error .game_already_started
  else create_game shuffleT shuffleP pick gameroom

/-! ### `events/server.py` — connection binding -/

/-- Python `dict` assignment `m[k] = v` on an association list (replace the
value of an existing key, else append). -/
def dictSet (m : List (Nat × Nat)) (k v : Nat) : List (Nat × Nat) :=
  match m with
  | [] => [(k, v)]
  | (k', v') :: rest => if k' = k then (k, v) :: rest else (k', v') :: dictSet rest k v

/-- Python `dict.get(k, None)`. -/
def dictGet : List (Nat × Nat) → Nat → Option Nat
  | [], _ => none
  | (k', v') :: rest, k => if k' = k then some v' else dictGet rest k

/-- `EventsServer.connection_on_data`: the state is the in-memory
`user_id → connection` map (connections by their ids).  `frame` is the
client payload after `ConnectRequestSchema().loads`: `none` when schema
parsing raises, `some token` otherwise; `lookup` is
`UsersService.get_user_token` (`none` models the raised lookup failure).
Every failure path only logs and leaves the map unchanged; a successful
lookup assigns `map[user_token.user_id] = connection`. -/
def connection_on_data (lookup : String → Option Nat) (m : List (Nat × Nat))
    (connection : Nat) (frame : Option String) : List (Nat × Nat) :=
  match frame with
  | none => m
  | some token =>
    match lookup token with
    | none => m
    | some user_id => dictSet m user_id connection

/-! ### `common/utils.py` — `parse_token` and `services/auth.py` —
`AuthService.authorize`

Python `str` is modelled as `List Char` here so that the character-level
operations compute. -/

/-- Python `str.lower` (ASCII, as exercised by the header values). -/
def pyLower (s : List Char) : List Char := s.map Char.toLower

/-- Python `str.strip()`: drop whitespace from both ends. -/
def pyStrip (s : List Char) : List Char :=
  ((s.dropWhile Char.isWhitespace).reverse.dropWhile Char.isWhitespace).reverse

/-- Python `" ".join(parts)`. -/
def joinSpace (parts : List (List Char)) : List Char :=
  (parts.intersperse [' ']).flatten

/-- Python `s.split(" ", 2)`: like the full split on single spaces, but at
most two splits are performed, the tail staying joined. -/
def pySplitSpace2 (s : List Char) : List (List Char) :=
  let parts := s.splitOn ' '
  if parts.length ≤ 3 then parts
  else parts.take 2 ++ [joinSpace (parts.drop 2)]

/-- `allowed_chars = string.ascii_letters + string.digits + "-_.="`. -/
def allowedChar (c : Char) : Bool :=
  c.isAlpha || c.isDigit || c = '-' || c = '_' || c = '.' || c = '='

/-- The value of the first header whose name lowercases to
`authorization` (werkzeug `headers.items(lower=True)` lowercases the keys;
the generator in `parse_token` takes the first match with default `""`). -/
def findAuthValue : List (List Char × List Char) → List Char
  | [] => []
  | (k, v) :: rest =>
    if pyLower k = "authorization".toList then v else findAuthValue rest

/-- The body of `parse_token` applied to the header value: strip, split on
spaces with `maxsplit=2`, require exactly two parts, a case-insensitive
`bearer` scheme and only allowed token characters, else return `""`. -/
def parseValue (value : List Char) : List Char :=
  match pySplitSpace2 (pyStrip value) with
  | [scheme, token] =>
    if pyLower scheme = "bearer".toList && token.all allowedChar then token else []
  | _ => []

/-- `parse_token` from `common/utils.py`. -/
def parse_token (headers : List (List Char × List Char)) : List Char :=
  parseValue (findAuthValue headers)

/-- `AuthService.authorize`: non-empty parsed token looked up through
`UsersRepository.get_user_by_token` (`tokenUser`, `none` modelling the
`UnauthorizedError` raised on a miss), empty token unauthorized. -/
def authorize (tokenUser : List Char → Option Nat)
    (headers : List (List Char × List Char)) : Except Err Nat :=
  let token := parse_token headers
  if token ≠ [] then
    match tokenUser token with
    | some u => .ok u
    | none => .error .unauthorized
  else .error .unauthorized

/-! ### `common/utils.py` — `is_host_valid`

`ipaddress.ip_address` is an external library function; it is passed in as
the `ipCheck` parameter (`true` when parsing succeeds).  Exceptions are
modelled by `Option`: `none` is an escaped `IndexError`. -/

/-- The label regex `(?!-)[a-z0-9-]{1,63}(?<!-)$` with `re.IGNORECASE`:
1 to 63 characters from `[A-Za-z0-9-]`, neither starting nor ending with a
hyphen. -/
def labelAllowed (l : List Char) : Bool :=
  decide (1 ≤ l.length) && decide (l.length ≤ 63) &&
  l.all (fun c => c.isAlpha || c.isDigit || c = '-') &&
  ! decide (l.head? = some '-') && ! decide (l.getLast? = some '-')

/-- `re.match(r"[0-9]+$", label)`: the whole label is one or more digits. -/
def isAllDigits (l : List Char) : Bool :=
  ! l.isEmpty && l.all Char.isDigit

/-- `_is_valid_hostname` from `common/utils.py`.  `hostname[-1]` on the
empty string raises `IndexError` (`none`). -/
def is_valid_hostname (hostname : List Char) : Option Bool :=
  match hostname.getLast? with
  | none => none
  | some c =>
    let hostname := if c = '.' then hostname.dropLast else hostname
    if 253 < hostname.length then some false
    else
      let labels := hostname.splitOn '.'
      match labels.getLast? with
      | none => none
      | some lastLabel =>
        if isAllDigits lastLabel then some false
        else some (labels.all labelAllowed)

/-- `is_host_valid` from `common/utils.py`: `true` on a parseable ip
address, otherwise the hostname fallback. -/
def is_host_valid (ipCheck : List Char → Bool) (host : List Char) : Option Bool :=
  if ipCheck host then some true else is_valid_hostname host

/-! ## Helper lemmas -/

/-- Membership in a Python set difference. -/
theorem mem_pySetDiff {a b : List Nat} {t : Nat} :
    t ∈ pySetDiff a b ↔ t ∈ a ∧ t ∉ b := by
  simp [pySetDiff, List.mem_filter, List.mem_dedup]

/-- Python dict assignment stores the value at the key. -/
theorem dictGet_dictSet_self (m : List (Nat × Nat)) (k v : Nat) :
    dictGet (dictSet m k v) k = some v := by
  induction m with
  | nil => simp [dictSet, dictGet]
  | cons kv rest ih =>
    obtain ⟨k', v'⟩ := kv
    by_cases h : k' = k
    · simp [dictSet, dictGet, h]
    · simpa [dictSet, dictGet, h] using ih

/-- Python dict assignment does not touch other keys. -/
theorem dictGet_dictSet_other (m : List (Nat × Nat)) (k v k' : Nat) (h : k' ≠ k) :
    dictGet (dictSet m k v) k' = dictGet m k' := by
  induction m with
  | nil => simp [dictSet, dictGet, Ne.symm h]
  | cons kv rest ih =>
    obtain ⟨k₀, v₀⟩ := kv
    by_cases h0 : k₀ = k
    · subst h0
      simp [dictSet, dictGet, Ne.symm h]
    · by_cases h1 : k₀ = k'
      · simp [dictSet, dictGet, h0, h1, h]
      · simpa [dictSet, dictGet, h0, h1] using ih

/-! ## C6 — tileset validity against the dictionary -/

/-- C6.  For every candidate tileset `T`: without jokers, `T` is valid iff
its sorted tuple is in the precomputed dictionary; with `k ≥ 1` jokers and
`R = T` minus the jokers, `T` is valid iff some dictionary entry `D` has
`|D| = |R| + k` and contains every tile of `R`. -/
theorem tileset_validity_spec (dict : List (List Nat)) (ts : Tileset) :
    is_valid dict ts = true ↔
      ((ts.contains_jokers = false ∧ pySorted ts.tiles ∈ dict) ∨
       (ts.contains_jokers = true ∧ ∃ d ∈ dict,
         d.length = ts.filter_jokers.length + ts.jokers_count ∧
         ∀ t ∈ ts.filter_jokers, t ∈ d)) := by
  unfold is_valid
  cases h : ts.contains_jokers with
  | false => simp [h]
  | true =>
    simp only [h, if_true, List.any_eq_true, Bool.and_eq_true, decide_eq_true_eq,
      List.all_eq_true, Bool.true_eq_false, false_and, false_or, true_and]
    constructor
    · rintro ⟨d, hd, hlen, hall⟩
      exact ⟨d, hd, by omega, fun t ht => by simpa using hall t ht⟩
    · rintro ⟨d, hd, hlen, hall⟩
      exact ⟨d, hd, by omega, fun t ht => by simpa using hall t ht⟩

/-! ## C10 — totality of host validation -/

/-- Splitting a list on a predicate never yields the empty list. -/
theorem splitOnP_ne_nil (p : Char → Bool) (l : List Char) : l.splitOnP p ≠ [] := by
  induction l with
  | nil => simp [List.splitOnP_nil]
  | cons x rest ih =>
    rw [List.splitOnP_cons]
    by_cases h : p x
    · simp [h]
    · simp only [h, Bool.false_eq_true, if_false]
      cases hr : rest.splitOnP p with
      | nil => exact absurd hr ih
      | cons a as => simp

/-- Splitting a list on a separator never yields the empty list. -/
theorem splitOn_ne_nil (c : Char) (l : List Char) : l.splitOn c ≠ [] :=
  splitOnP_ne_nil (· == c) l

/-- C10.  `is_host_valid` returns a boolean on every non-empty input, but
raises (`none`) on the empty string: `ip_address("")` fails, and the
hostname fallback indexes `hostname[-1]`. -/
theorem is_host_valid_totality (ipCheck : List Char → Bool)
    (h0 : ipCheck [] = false) :
    (∀ host, host ≠ [] → (is_host_valid ipCheck host).isSome = true) ∧
    is_host_valid ipCheck [] = none := by
  constructor
  · intro host hne
    unfold is_host_valid
    by_cases hip : ipCheck host
    · simp [hip]
    · simp only [hip, if_false, Bool.false_eq_true]
      unfold is_valid_hostname
      match hl : host.getLast? with
      | none => exact absurd (List.getLast?_eq_none_iff.mp hl) hne
      | some c =>
        simp only
        set h' := if c = '.' then host.dropLast else host with hh
        by_cases hlen : 253 < h'.length
        · simp [hlen]
        · simp only [hlen, if_false]
          match hsp : (h'.splitOn '.').getLast? with
          | none =>
            exact absurd (List.getLast?_eq_none_iff.mp hsp) (splitOn_ne_nil '.' h')
          | some lastLabel =>
            by_cases hd : isAllDigits lastLabel <;> simp [hd]
  · unfold is_host_valid is_valid_hostname
    simp [h0]

/-- Witness for C10 at a concrete ip checker and host. -/
theorem is_host_valid_totality_witness :
    (is_host_valid (fun _ => false) ['a']).isSome = true ∧
    is_host_valid (fun _ => false) [] = none :=
  ⟨(is_host_valid_totality (fun _ => false) rfl).1 ['a'] (by decide),
   (is_host_valid_totality (fun _ => false) rfl).2⟩

/-! ## C8 — events process connection binding -/

/-- C8 (amended).  `connection_on_data` ignores frames that fail schema
parsing or token lookup, but every valid token frame (re)binds the map
entry of the token user to the sending connection — also on a connection
that is already bound. -/
theorem connection_on_data_spec (lookup : String → Option Nat)
    (m : List (Nat × Nat)) (connection : Nat) (frame : Option String) :
    (frame = none → connection_on_data lookup m connection frame = m) ∧
    (∀ token, frame = some token → lookup token = none →
      connection_on_data lookup m connection frame = m) ∧
    (∀ token user_id, frame = some token → lookup token = some user_id →
      dictGet (connection_on_data lookup m connection frame) user_id = some connection ∧
      ∀ k, k ≠ user_id →
        dictGet (connection_on_data lookup m connection frame) k = dictGet m k) := by
  refine ⟨fun h => ?_, fun token h hl => ?_, fun token user_id h hl => ?_⟩
  · simp [connection_on_data, h]
  · simp [connection_on_data, h, hl]
  · subst h
    simp only [connection_on_data, hl]
    exact ⟨dictGet_dictSet_self m user_id connection,
      fun k hk => dictGet_dictSet_other m user_id connection k hk⟩

/-- Token table for the C8 counterexample. -/
def c8Lookup : String → Option Nat := fun t =>
  if t = "token-a" then some 1 else if t = "token-b" then some 2 else none

/-- The map after connection 7 sends its first valid token frame. -/
def c8BoundMap : List (Nat × Nat) := connection_on_data c8Lookup [] 7 (some "token-a")

/-- Counterexample to C8 as stated: connection 7 is bound (to user 1), yet
a later frame from the same connection still changes the map (it also binds
user 2 to connection 7). -/
theorem connection_on_data_rebinds :
    connection_on_data c8Lookup c8BoundMap 7 (some "token-b") ≠ c8BoundMap := by
  decide

/-- Witness for the amended C8 at the concrete map and frames. -/
theorem connection_on_data_spec_witness :
    dictGet (connection_on_data c8Lookup c8BoundMap 7 (some "token-b")) 2 = some 7 ∧
    dictGet (connection_on_data c8Lookup c8BoundMap 7 (some "token-b")) 1 =
      dictGet c8BoundMap 1 :=
  ⟨((connection_on_data_spec c8Lookup c8BoundMap 7 (some "token-b")).2.2
      "token-b" 2 rfl (by decide)).1,
   ((connection_on_data_spec c8Lookup c8BoundMap 7 (some "token-b")).2.2
      "token-b" 2 rfl (by decide)).2 1 (by decide)⟩

/-! ## C9 — strict bearer-token parsing -/

/-- Spec-side acceptance condition on one header value: after stripping,
the value splits on spaces into exactly a scheme and one token, the scheme
is `bearer` case-insensitively, and every token character is in
`[A-Za-z0-9._=-]`. -/
def valueOK (v : List Char) : Bool :=
  match pySplitSpace2 (pyStrip v) with
  | [scheme, token] =>
    decide (pyLower scheme = "bearer".toList) && token.all allowedChar
  | _ => false

/-- Spec-side acceptance condition on a header list: some header whose name
lowercases to `authorization` has an acceptable value. -/
def SomeAuthHeaderOK (headers : List (List Char × List Char)) : Prop :=
  ∃ kv ∈ headers, pyLower kv.1 = "authorization".toList ∧ valueOK kv.2 = true

instance decSomeAuthHeaderOK (headers : List (List Char × List Char)) :
    Decidable (SomeAuthHeaderOK headers) :=
  List.decidableBEx _ headers

/-- A value failing the acceptance condition parses to the empty token. -/
theorem parseValue_eq_nil_of_not_ok {v : List Char} (h : valueOK v = false) :
    parseValue v = [] := by
  unfold parseValue
  unfold valueOK at h
  match hs : pySplitSpace2 (pyStrip v) with
  | [] => rfl
  | [_] => rfl
  | [scheme, token] =>
    rw [hs] at h
    simp only [show (decide (pyLower scheme = "bearer".toList) && token.all allowedChar)
        = false from h, Bool.false_eq_true, if_false]
  | _ :: _ :: _ :: _ => rfl

/-- A non-empty parsed token certifies the acceptance condition. -/
theorem valueOK_of_parseValue_ne_nil {v : List Char} (h : parseValue v ≠ []) :
    valueOK v = true := by
  cases hok : valueOK v with
  | false => exact absurd (parseValue_eq_nil_of_not_ok hok) h
  | true => rfl

/-- The empty header value parses to the empty token. -/
theorem parseValue_nil : parseValue [] = [] := by decide

/-- The first `authorization` header value, or the `""` default. -/
theorem findAuthValue_cases (headers : List (List Char × List Char)) :
    findAuthValue headers = [] ∨
    ∃ kv ∈ headers, pyLower kv.1 = "authorization".toList ∧
      kv.2 = findAuthValue headers := by
  induction headers with
  | nil => exact .inl rfl
  | cons kv rest ih =>
    obtain ⟨k, v⟩ := kv
    by_cases hk : pyLower k = "authorization".toList
    · exact .inr ⟨(k, v), List.mem_cons_self .., hk,
        by unfold findAuthValue; rw [if_pos hk]⟩
    · rcases ih with h | ⟨kv', hmem, hk', hv'⟩
      · refine .inl ?_
        unfold findAuthValue
        rw [if_neg hk]
        exact h
      · refine .inr ⟨kv', List.mem_cons_of_mem _ hmem, hk', ?_⟩
        unfold findAuthValue
        rw [if_neg hk]
        exact hv'

/-- C9.  `parse_token` returns a non-empty token only when some header
whose name lowercases to `authorization` carries an acceptable
`Bearer <token>` value; otherwise it returns the empty string and
`authorize` then fails with `unauthorized` (HTTP 401). -/
theorem parse_token_strict (tokenUser : List Char → Option Nat)
    (headers : List (List Char × List Char)) :
    (parse_token headers ≠ [] → SomeAuthHeaderOK headers) ∧
    (¬ SomeAuthHeaderOK headers →
      parse_token headers = [] ∧
      authorize tokenUser headers = .error .unauthorized) := by
  have key : parse_token headers ≠ [] → SomeAuthHeaderOK headers := by
    intro h
    rcases findAuthValue_cases headers with hnil | ⟨kv, hmem, hk, hv⟩
    · rw [parse_token, hnil, parseValue_nil] at h
      exact absurd rfl h
    · refine ⟨kv, hmem, hk, ?_⟩
      rw [parse_token, ← hv] at h
      exact valueOK_of_parseValue_ne_nil h
  refine ⟨key, fun hno => ?_⟩
  have hpt : parse_token headers = [] := by
    by_cases h : parse_token headers = []
    · exact h
    · exact absurd (key h) hno
  refine ⟨hpt, ?_⟩
  unfold authorize
  simp [hpt]

/-- Witness for C9: a well-formed bearer header is accepted, a `Basic`
header is rejected and authorization fails. -/
theorem parse_token_strict_witness :
    SomeAuthHeaderOK [("Authorization".toList, "Bearer abc.DEF-123_=".toList)] ∧
    (parse_token [("Authorization".toList, "Basic abc".toList)] = [] ∧
     authorize (fun _ => none) [("Authorization".toList, "Basic abc".toList)] =
       .error .unauthorized) :=
  ⟨(parse_token_strict (fun _ => none)
      [("Authorization".toList, "Bearer abc.DEF-123_=".toList)]).1 (by decide),
   (parse_token_strict (fun _ => none)
      [("Authorization".toList, "Basic abc".toList)]).2 (by decide)⟩

/-! ## C4 — order of the move preconditions -/

/-- The error component of an operation result. -/
def errOf {α : Type} : Except Err α → Option Err
  | .ok _ => none
  | .error e => some e

theorem exbind_ok {α β : Type} (a : α) (f : α → Except Err β) :
    (Except.ok a >>= f) = f a := rfl

theorem exbind_error {α β : Type} (e : Err) (f : α → Except Err β) :
    ((Except.error e : Except Err α) >>= f) = .error e := rfl

/-- Modelled from the spec wording of the move preconditions: the six
checks in the stated order, each mapped to its own error, the earliest
failing one winning. -/
def first_move_error (g : Game) (user_id : Nat) (board : List (List Nat)) : Option Err :=
  if g.winner ≠ none then some .game_ended
  else
    match g.game_state.players.find? (fun p => decide (p.user_id = user_id)) with
    | none => some .user_not_in_game
    | some p =>
      if p.id ≠ g.turn.player_id then some .not_user_turn
      else
        let candidate := Board.create board
        if ¬ candidate.all_tiles.Nodup then some .duplicate_tiles
        else if ¬ g.game_state.board.all_tiles ⊆ candidate.all_tiles then
          some .missing_board_tiles
        else if ¬ (∀ t ∈ candidate.all_tiles,
            t ∉ g.game_state.board.all_tiles → t ∈ p.rack.tiles) then
          some .new_tiles_not_from_rack
        else none

/-- C4.  `GamesService.move` evaluates the six preconditions in the order
of the spec, failing with exactly the error of the earliest violated one
and succeeding exactly when all hold (the operation is pure, so a failure
leaves every game unchanged). -/
theorem move_error_order (g : Game) (user_id : Nat) (board : List (List Nat)) :
    errOf (GamesService.move g user_id board) = first_move_error g user_id board := by
  unfold GamesService.move GamesService.ensure_game_player first_move_error
    Game.player_for_user_id perform_move
  by_cases hw : g.winner = none
  case neg =>
    obtain ⟨w, hw'⟩ := Option.ne_none_iff_exists'.mp hw
    simp [hw', errOf, exbind_error]
  case pos =>
  cases hf : g.game_state.players.find? (fun p => decide (p.user_id = user_id)) with
  | none => simp [hw, hf, errOf, exbind_error, exbind_ok]
  | some p =>
    by_cases hpid : p.id = g.turn.player_id
    case neg => simp [hw, hf, hpid, errOf, exbind_error, exbind_ok]
    case pos =>
    by_cases hdup : (Board.create board).all_tiles.Nodup
    case neg => simp [hw, hf, hpid, hdup, errOf, exbind_error, exbind_ok]
    case pos =>
    by_cases hsup : ∀ t ∈ g.game_state.board.all_tiles, t ∈ (Board.create board).all_tiles
    case neg =>
      have hsub : ¬ g.game_state.board.all_tiles ⊆ (Board.create board).all_tiles :=
        fun hs => hsup (fun t ht => hs ht)
      simp [hw, hf, hpid, hdup, hsup, hsub, errOf, exbind_error, exbind_ok]
    case pos =>
    have hsub : g.game_state.board.all_tiles ⊆ (Board.create board).all_tiles :=
      fun t ht => hsup t ht
    by_cases hrk : ∀ t ∈ pySetDiff (Board.create board).all_tiles
        g.game_state.board.all_tiles, t ∈ p.rack.tiles
    case neg =>
      have hrk' : ¬ ∀ t ∈ (Board.create board).all_tiles,
          t ∉ g.game_state.board.all_tiles → t ∈ p.rack.tiles :=
        fun hall => hrk
          (fun t ht => hall t (mem_pySetDiff.mp ht).1 (mem_pySetDiff.mp ht).2)
      have h1 : ¬ ∃ x ∈ g.game_state.board.all_tiles,
          x ∉ (Board.create board).all_tiles := by
        push_neg
        exact hsup
      have h2 : ∃ x ∈ pySetDiff (Board.create board).all_tiles
          g.game_state.board.all_tiles, x ∉ p.rack.tiles := by
        push_neg at hrk
        exact hrk
      have h3 : ∃ x ∈ (Board.create board).all_tiles,
          x ∉ g.game_state.board.all_tiles ∧ x ∉ p.rack.tiles := by
        obtain ⟨x, hx, hnx⟩ := h2
        exact ⟨x, (mem_pySetDiff.mp hx).1, (mem_pySetDiff.mp hx).2, hnx⟩
      simp [hw, hf, hpid, hdup, hsup, hsub, h1, h2, h3, errOf, exbind_error, exbind_ok]
    case pos =>
    have hrk' : ∀ t ∈ (Board.create board).all_tiles,
        t ∉ g.game_state.board.all_tiles → t ∈ p.rack.tiles :=
      fun t ht hnt => hrk t (mem_pySetDiff.mpr ⟨ht, hnt⟩)
    have hmem : p ∈ g.game_state.players := List.mem_of_find?_eq_some hf
    have h1 : ¬ ∃ x ∈ g.game_state.board.all_tiles,
        x ∉ (Board.create board).all_tiles := by
      push_neg
      exact hsup
    have h2 : ¬ ∃ x ∈ pySetDiff (Board.create board).all_tiles
        g.game_state.board.all_tiles, x ∉ p.rack.tiles := by
      push_neg
      exact hrk
    have h4 : ¬ ∃ x ∈ (Board.create board).all_tiles,
        x ∉ g.game_state.board.all_tiles ∧ x ∉ p.rack.tiles := by
      push_neg
      exact fun t ht hnt => hrk' t ht hnt
    have hany : ∀ rk : Tileset, ∃ x ∈ g.game_state.players, x.id = (p.with_rack rk).id :=
      fun rk => ⟨p, hmem, rfl⟩
    simp [hw, hf, hpid, hdup, hsup, hsub, h1, h2, h4, hany, errOf, exbind_error,
      exbind_ok, Game.with_new_move, GameState.with_updated_player]

/-! ## Anatomy of successful operations (shared by C1–C3, C5) -/

/-- Decomposition of a successful `_ensure_game_player`. -/
theorem ensure_game_player_ok {g : Game} {uid : Nat} {p : Player}
    (h : GamesService.ensure_game_player g uid = .ok p) :
    g.winner = none ∧
    g.game_state.players.find? (fun q => decide (q.user_id = uid)) = some p ∧
    p.id = g.turn.player_id := by
  unfold GamesService.ensure_game_player Game.player_for_user_id at h
  by_cases hw : g.winner = none
  case neg =>
    obtain ⟨w, hw'⟩ := Option.ne_none_iff_exists'.mp hw
    simp [hw'] at h
  case pos =>
  cases hf : g.game_state.players.find? (fun q => decide (q.user_id = uid)) with
  | none => simp [hw, hf, exbind_error] at h
  | some q =>
    by_cases hq : q.id = g.turn.player_id
    · simp only [hw, Option.isSome_none, Bool.false_eq_true, if_false, hf,
        exbind_ok, ne_eq, hq, not_true_eq_false] at h
      injection h with h
      exact ⟨hw, by rw [h], by rw [← h]; exact hq⟩
    · simp [hw, hf, hq, exbind_ok, exbind_error] at h

/-- Introduction form of `_ensure_game_player`. -/
theorem ensure_game_player_intro {g : Game} {uid : Nat} {p : Player}
    (hw : g.winner = none)
    (hf : g.game_state.players.find? (fun q => decide (q.user_id = uid)) = some p)
    (hp : p.id = g.turn.player_id) :
    GamesService.ensure_game_player g uid = .ok p := by
  unfold GamesService.ensure_game_player Game.player_for_user_id
  simp only [hw, Option.isSome_none, Bool.false_eq_true, if_false, hf, exbind_ok,
    ne_eq, hp, not_true_eq_false]

/-- Decomposition of a successful `perform_move`. -/
theorem perform_move_ok {rack : Tileset} {current candidate : Board}
    {rk : Tileset} {bd : Board}
    (h : perform_move rack current candidate = .ok (rk, bd)) :
    bd = candidate ∧
    rk = Tileset.create (pySetDiff rack.tiles
      (pySetDiff candidate.all_tiles current.all_tiles)) ∧
    candidate.all_tiles.Nodup ∧
    (∀ t ∈ current.all_tiles, t ∈ candidate.all_tiles) ∧
    (∀ t ∈ pySetDiff candidate.all_tiles current.all_tiles, t ∈ rack.tiles) := by
  unfold perform_move at h
  split_ifs at h with h1 h2 h3
  injection h with h
  injection h with ha hb
  exact ⟨hb.symm, ha.symm, h1, h2, h3⟩

/-- The first user-id match survives replacing the turn player (the player
slots before it have neither the user id nor the replaced player id). -/
theorem find_uid_replaceFirstById {ps : List Player} {p p' : Player} {uid : Nat}
    (hfind : ps.find? (fun q => decide (q.user_id = uid)) = some p)
    (hid : p'.id = p.id) (huid : p'.user_id = uid) :
    (replaceFirstById ps p').find? (fun q => decide (q.user_id = uid)) = some p' := by
  induction ps with
  | nil => simp at hfind
  | cons q rest ih =>
    unfold replaceFirstById
    by_cases hq : q.id = p'.id
    · rw [if_pos hq]
      exact List.find?_cons_of_pos _ (by simp [huid])
    · rw [if_neg hq]
      by_cases hqu : q.user_id = uid
      · rw [List.find?_cons_of_pos _ (by simp [hqu])] at hfind
        injection hfind with hqp
        exact absurd (by rw [hqp]; exact hid.symm) hq
      · rw [List.find?_cons_of_neg _ (by simp [hqu])] at hfind
        rw [List.find?_cons_of_neg _ (by simp [hqu])]
        exact ih hfind

/-- Decomposition of a successful `GamesService.move`. -/
theorem move_ok {g : Game} {uid : Nat} {board : List (List Nat)} {g' : Game}
    (h : GamesService.move g uid board = .ok g') :
    ∃ p rk, GamesService.ensure_game_player g uid = .ok p ∧
      perform_move p.rack g.game_state.board (Board.create board) =
        .ok (rk, Board.create board) ∧
      g' = { g with
             game_state := { g.game_state with
               players := replaceFirstById g.game_state.players (p.with_rack rk),
               board := Board.create board },
             turn := g.turn.with_new_move rk (Board.create board) } := by
  unfold GamesService.move at h
  cases he : GamesService.ensure_game_player g uid with
  | error e => rw [he, exbind_error] at h; exact absurd h (by simp)
  | ok p =>
    rw [he, exbind_ok] at h
    cases hpm : perform_move p.rack g.game_state.board (Board.create board) with
    | error e => rw [hpm, exbind_error] at h; exact absurd h (by simp)
    | ok pr =>
      obtain ⟨rk, bd⟩ := pr
      obtain ⟨hbd, -, -, -, -⟩ := perform_move_ok hpm
      subst hbd
      rw [hpm, exbind_ok] at h
      replace h : g.with_new_move rk (Board.create board) p = .ok g' := h
      unfold Game.with_new_move GameState.with_updated_player at h
      by_cases hany : g.game_state.players.any
          (fun q => decide (q.id = (p.with_rack rk).id)) = true
      · rw [if_pos hany, exbind_ok] at h
        injection h with h
        exact ⟨p, rk, rfl, hpm, by rw [← h]; rfl⟩
      · rw [if_neg hany, exbind_error] at h
        exact absurd h (by simp)

/-- Every ledger entry after `with_new_move` sits at or below the new
revision: the filter keeps the old entries at or below the old revision and
the appended move carries exactly the new one. -/
theorem with_new_move_moves_le (t : Turn) (rk : Tileset) (bd : Board) :
    ∀ mv ∈ (t.with_new_move rk bd).moves,
      mv.revision ≤ (t.with_new_move rk bd).revision := by
  intro mv hmv
  unfold Turn.with_new_move at hmv ⊢
  simp only [List.mem_append, List.mem_filter, List.mem_singleton,
    decide_eq_true_eq] at hmv
  rcases hmv with ⟨-, hle⟩ | rfl
  · exact Nat.le_succ_of_le hle
  · exact Nat.le_refl _

/-- `next_move` fails when no ledger entry exceeds the revision. -/
theorem next_move_err {t : Turn} (h : ∀ mv ∈ t.moves, mv.revision ≤ t.revision) :
    t.next_move = .error .no_move_to_redo := by
  unfold Turn.next_move
  rw [List.find?_eq_none.mpr]
  intro mv hmv
  simp only [decide_eq_true_eq]
  have := h mv hmv
  omega

/-! ## C3 — branch cut on a new move -/

/-- Redo fails immediately after any successful move. -/
theorem redo_fails_after_move {g g' : Game} {uid : Nat} {board : List (List Nat)}
    (h : GamesService.move g uid board = .ok g') :
    GamesService.redo g' uid = .error .no_move_to_redo := by
  obtain ⟨p, rk, hens, hpm, hg'⟩ := move_ok h
  obtain ⟨hw, hf, hpid⟩ := ensure_game_player_ok hens
  have hens' : GamesService.ensure_game_player g' uid = .ok (p.with_rack rk) := by
    refine ensure_game_player_intro ?_ ?_ ?_
    · rw [hg']
      exact hw
    · rw [hg']
      exact find_uid_replaceFirstById hf rfl
        (by have := List.find?_some hf; simpa using this)
    · rw [hg']
      exact hpid
  unfold GamesService.redo Game.with_redo
  rw [hens', exbind_ok]
  have hmoves : ∀ mv ∈ g'.turn.moves, mv.revision ≤ g'.turn.revision := by
    rw [hg']
    exact with_new_move_moves_le g.turn rk (Board.create board)
  rw [next_move_err hmoves, exbind_error]

/-- C3.  After an undo followed by a new successful move, every remaining
ledger entry sits at or below the turn revision (the move discarded the
undone forward branch and appended one move at revision + 1), so redo fails
with `no_move_to_redo`. -/
theorem branch_cut_on_new_move (g g₁ g₂ : Game) (uid : Nat) (board : List (List Nat))
    (_hundo : GamesService.undo g uid = .ok g₁)
    (hmove : GamesService.move g₁ uid board = .ok g₂) :
    (∀ mv ∈ g₂.turn.moves, mv.revision ≤ g₂.turn.revision) ∧
    GamesService.redo g₂ uid = .error .no_move_to_redo := by
  obtain ⟨p, rk, hens, hpm, hg₂⟩ := move_ok hmove
  constructor
  · rw [hg₂]
    exact with_new_move_moves_le g₁.turn rk (Board.create board)
  · exact redo_fails_after_move hmove

/-- A small two-player game one move into the first turn: player 1 (user
10) played tiles 0 and 1 from the starting rack `[0,1,2]`. -/
def gW1 : Game where
  id := 5
  gameroom_id := 6
  game_state :=
    { id := 7, game_id := 5,
      players := [{ id := 1, name := "A", rack := ⟨[2]⟩, user_id := 10 },
                  { id := 2, name := "B", rack := ⟨[3, 4]⟩, user_id := 20 }],
      board := ⟨[⟨[0, 1]⟩]⟩, pile := [9, 11] }
  turn :=
    { id := 100, game_id := 5, player_id := 1,
      starting_rack := ⟨[0, 1, 2]⟩, starting_board := ⟨[]⟩,
      moves := [{ id := 0, board := ⟨[⟨[0, 1]⟩]⟩, rack := ⟨[2]⟩,
                  revision := 1, turn_id := 100 }],
      revision := 1 }
  turn_order := [10, 20]
  made_meld := []
  winner := none

/-- `gW1` after undoing the move: starting board and rack restored,
revision 0, ledger preserved. -/
def gW2 : Game :=
  { gW1 with
    game_state :=
      { gW1.game_state with
        players := [{ id := 1, name := "A", rack := ⟨[0, 1, 2]⟩, user_id := 10 },
                    { id := 2, name := "B", rack := ⟨[3, 4]⟩, user_id := 20 }],
        board := ⟨[]⟩ },
    turn := { gW1.turn with revision := 0 } }

/-- `gW2` after the new move `[[0, 2]]`: the undone forward move is
discarded and replaced by the new revision-1 move. -/
def gW3 : Game :=
  { gW1 with
    game_state :=
      { gW1.game_state with
        players := [{ id := 1, name := "A", rack := ⟨[1]⟩, user_id := 10 },
                    { id := 2, name := "B", rack := ⟨[3, 4]⟩, user_id := 20 }],
        board := ⟨[⟨[0, 2]⟩]⟩ },
    turn :=
      { gW1.turn with
        moves := [{ id := 0, board := ⟨[⟨[0, 2]⟩]⟩, rack := ⟨[1]⟩,
                    revision := 1, turn_id := 100 }],
        revision := 1 } }

/-- Witness for C3 on the concrete undo–move–redo chain. -/
theorem branch_cut_on_new_move_witness :
    GamesService.undo gW1 10 = .ok gW2 ∧
    GamesService.move gW2 10 [[0, 2]] = .ok gW3 ∧
    GamesService.redo gW3 10 = .error .no_move_to_redo :=
  ⟨by decide, by decide,
   (branch_cut_on_new_move gW1 gW2 gW3 10 [[0, 2]] (by decide) (by decide)).2⟩

/-! ## C7 — starting a game -/

/-- The head of a non-empty list is a member (a concrete conforming
`pick`). -/
theorem headD_mem (l : List Nat) (h : l ≠ []) : l.headD 0 ∈ l := by
  cases l with
  | nil => exact absurd rfl h
  | cons x rest => exact List.mem_cons_self ..

/-- Drawing `n` tiles from a pile of at least `n` succeeds, yields `n`
tiles, and conserves the pile as a multiset. -/
theorem drawTiles_ok (pick : List Nat → Nat) (hpick : ∀ l, l ≠ [] → pick l ∈ l) :
    ∀ (n : Nat) (pile : List Nat), n ≤ pile.length →
      ∃ ts pile', drawTiles pick n pile = .ok (ts, pile') ∧
        ts.length = n ∧ pile'.length = pile.length - n ∧
        (pile : Multiset Nat) = ↑ts + ↑pile' := by
  intro n
  induction n with
  | zero =>
    intro pile _
    exact ⟨[], pile, rfl, rfl, by omega, by simp⟩
  | succ n ih =>
    intro pile hlen
    have hne : pile ≠ [] := by
      intro hnil
      rw [hnil] at hlen
      simp at hlen
    have ht : pick pile ∈ pile := hpick pile hne
    have herase : (pile.erase (pick pile)).length = pile.length - 1 :=
      List.length_erase_of_mem ht
    obtain ⟨ts, pile', hdraw, hts, hlen', hms⟩ :=
      ih (pile.erase (pick pile)) (by omega)
    refine ⟨pick pile :: ts, pile', ?_, by simp [hts], by omega, ?_⟩
    · unfold drawTiles
      rw [if_neg hne]
      simp only [hdraw, exbind_ok]
    · have hperm : (pile : Multiset Nat) = ↑(pick pile :: pile.erase (pick pile)) :=
        Multiset.coe_eq_coe.mpr (List.perm_cons_erase ht)
      rw [hperm]
      show (pick pile) ::ₘ (↑(pile.erase (pick pile)) : Multiset Nat) = _
      rw [hms]
      show _ = (pick pile) ::ₘ (↑ts : Multiset Nat) + ↑pile'
      rw [Multiset.cons_add]

/-- `_create_players` succeeds on a big-enough pile: one player per user in
order, every rack of 14 tiles, pile conserved. -/
theorem createPlayers_ok (pick : List Nat → Nat) (hpick : ∀ l, l ≠ [] → pick l ∈ l) :
    ∀ (users : List GUser) (k : Nat) (pile : List Nat),
      14 * users.length ≤ pile.length →
      ∃ ps pile', createPlayers pick users k pile = .ok (ps, pile') ∧
        ps.map Player.user_id = users.map GUser.id ∧
        (∀ p ∈ ps, p.rack.tiles.length = 14) ∧
        pile'.length = pile.length - 14 * users.length ∧
        (pile : Multiset Nat) =
          (ps.map (fun p => (p.rack.tiles : Multiset Nat))).sum + ↑pile' := by
  intro users
  induction users with
  | nil =>
    intro k pile _
    exact ⟨[], pile, rfl, rfl, by simp, by simp, by simp⟩
  | cons u us ih =>
    intro k pile hlen
    have hc : (u :: us).length = us.length + 1 := List.length_cons ..
    obtain ⟨ts, pile1, hdraw, hts, hlen1, hms1⟩ :=
      drawTiles_ok pick hpick 14 pile (by omega)
    obtain ⟨ps, pile2, hcp, hmap, hrk, hlen2, hms2⟩ :=
      ih (k + 1) pile1 (by omega)
    refine ⟨{ id := 1000000 + k, name := u.name, rack := ⟨ts⟩, user_id := u.id } :: ps,
      pile2, ?_, by simp [hmap], ?_, by omega, ?_⟩
    · unfold createPlayers
      simp only [hdraw, exbind_ok, hcp]
    · intro p hp
      rcases List.mem_cons.mp hp with rfl | hp
      · exact hts
      · exact hrk p hp
    · rw [hms1, hms2]
      simp only [List.map_cons, List.sum_cons]
      rw [add_assoc]

/-- C7 (amended).  For a STARTING gameroom whose owner starts the game:
exactly one user fails with `not_enough_players`; with 2 to 4 users a game
is created holding one player per user, each with a 14-tile rack; with zero
users (unreachable through the lobby operations) the code instead raises
`IndexError` at `players[0]`. -/
theorem start_game_spec (shuffleT : List Nat → List Nat)
    (shuffleP : List Player → List Player) (pick : List Nat → Nat)
    (gameroom : Gameroom) (user_id : Nat)
    (hshT : ∀ l, (shuffleT l).Perm l) (hshP : ∀ l, (shuffleP l).Perm l)
    (hpick : ∀ l, l ≠ [] → pick l ∈ l)
    (howner : gameroom.owner_id = user_id) (hstat : gameroom.status = .starting) :
    (gameroom.users.length = 1 →
      start_game shuffleT shuffleP pick gameroom user_id = .error .not_enough_players) ∧
    (gameroom.users.length = 0 →
      start_game shuffleT shuffleP pick gameroom user_id = .error .index_error) ∧
    (2 ≤ gameroom.users.length → gameroom.users.length ≤ 4 →
      ∃ game, start_game shuffleT shuffleP pick gameroom user_id = .ok game ∧
        game.game_state.players.length = gameroom.users.length ∧
        (∀ p ∈ game.game_state.players, p.rack.tiles.length = 14) ∧
        (game.game_state.players.map Player.user_id).Perm
          (gameroom.users.map GUser.id)) := by
  have hsg : start_game shuffleT shuffleP pick gameroom user_id =
      create_game shuffleT shuffleP pick gameroom := by
    unfold start_game
    rw [if_neg (by simp [howner]), if_neg (by simp [hstat])]
  refine ⟨fun h1 => ?_, fun h0 => ?_, fun h2 h4 => ?_⟩
  · rw [hsg]
    unfold create_game
    rw [if_pos h1]
  · rw [hsg]
    unfold create_game
    rw [if_neg (by omega)]
    have husers : gameroom.users = [] := List.length_eq_zero.mp h0
    rw [husers]
    have hraw : createPlayers pick [] 0 (shuffleT TILE_IDS) =
        .ok ([], shuffleT TILE_IDS) := rfl
    simp only [hraw, exbind_ok, (hshP []).eq_nil]
  · rw [hsg]
    unfold create_game
    rw [if_neg (by omega)]
    have hpile : (shuffleT TILE_IDS).length = 106 := by
      rw [(hshT TILE_IDS).length_eq]
      rfl
    obtain ⟨raw, pile, hcp, hmap, hrk, -, -⟩ :=
      createPlayers_ok pick hpick gameroom.users 0 (shuffleT TILE_IDS)
        (by rw [hpile]; omega)
    simp only [hcp, exbind_ok]
    have hperm : (shuffleP raw).Perm raw := hshP raw
    have hlenp : (shuffleP raw).length = gameroom.users.length := by
      rw [hperm.length_eq, ← List.length_map raw Player.user_id, hmap,
        List.length_map]
    cases hps : shuffleP raw with
    | nil =>
      rw [hps] at hlenp
      simp at hlenp
      omega
    | cons p0 rest =>
      refine ⟨_, rfl, ?_, ?_, ?_⟩
      · rw [← hps]
        exact hlenp
      · intro p hp
        rw [← hps] at hp
        exact hrk p (hperm.mem_iff.mp hp)
      · rw [← hps, ← hmap]
        exact hperm.map Player.user_id

/-- A STARTING gameroom value with no users, owned by user 10. -/
def grEmpty : Gameroom :=
  { id := 1, name := "g", owner_id := 10, users := [], status := .starting }

/-- Counterexample to C7 as stated: starting a 0-user gameroom (fewer than
2 users) does not fail with `not_enough_players` — `players[0]` raises
`IndexError` instead (the source only rejects `len(users) == 1`). -/
theorem start_game_empty_gameroom :
    start_game id id (fun l => l.headD 0) grEmpty 10 = .error .index_error := by
  decide

/-- Witness for the amended C7 on a concrete two-user gameroom. -/
theorem start_game_spec_witness :
    ∃ game, start_game id id (fun l => l.headD 0)
        { id := 1, name := "g", owner_id := 10,
          users := [{ id := 10, name := "A" }, { id := 20, name := "B" }],
          status := .starting } 10 = .ok game ∧
      game.game_state.players.length = 2 ∧
      (∀ p ∈ game.game_state.players, p.rack.tiles.length = 14) ∧
      (game.game_state.players.map Player.user_id).Perm [10, 20] :=
  (start_game_spec id id (fun l => l.headD 0) _ 10 (fun l => List.Perm.refl l)
    (fun l => List.Perm.refl l) headD_mem rfl rfl).2.2 (by decide) (by decide)

/-! ## Cyclic turn order (shared by C1 and C5) -/

/-- Spec-side reading of the next user in the cyclic turn order. -/
def nextInCyclicOrder (order : List Nat) (uid : Nat) : Option Nat :=
  match pyIndex order uid with
  | none => none
  | some i => order[(i + 1) % order.length]?

/-- A found index points at the value. -/
theorem pyIndex_getElem {l : List Nat} {a : Nat} :
    ∀ {i : Nat}, pyIndex l a = some i → l[i]? = some a := by
  induction l with
  | nil => intro i h; simp [pyIndex] at h
  | cons x rest ih =>
    intro i h
    unfold pyIndex at h
    by_cases hx : x = a
    · rw [if_pos hx] at h
      injection h with h
      rw [← h]
      simp [hx]
    · rw [if_neg hx] at h
      cases hr : pyIndex rest a with
      | none => rw [hr] at h; simp at h
      | some j =>
        rw [hr] at h
        injection h with h
        rw [← h]
        simpa using ih hr

/-- Membership gives an index. -/
theorem pyIndex_of_mem {l : List Nat} {a : Nat} (h : a ∈ l) :
    ∃ i, pyIndex l a = some i := by
  induction l with
  | nil => simp at h
  | cons x rest ih =>
    by_cases hx : x = a
    · exact ⟨0, by simp [pyIndex, hx]⟩
    · obtain ⟨i, hi⟩ := ih (by rcases List.mem_cons.mp h with h | h; exact absurd h.symm hx; exact h)
      exact ⟨i + 1, by simp [pyIndex, hx, hi]⟩

/-- The last element of a list is a member. -/
theorem mem_of_getLast?_eq_some {l : List Nat} {a : Nat}
    (h : l.getLast? = some a) : a ∈ l := by
  rw [List.getLast?_eq_getElem?] at h
  obtain ⟨hlt, hget⟩ := List.getElem?_eq_some.mp h
  rw [← hget]
  exact List.getElem_mem hlt

/-- On a duplicate-free list, the last element is found at the last index. -/
theorem pyIndex_getLast {l : List Nat} {a : Nat} (hnd : l.Nodup)
    (hlast : l.getLast? = some a) : pyIndex l a = some (l.length - 1) := by
  induction l with
  | nil => simp at hlast
  | cons x rest ih =>
    by_cases hrest : rest = []
    · subst hrest
      simp only [List.getLast?_singleton] at hlast
      injection hlast with hlast
      simp [pyIndex, hlast]
    · obtain ⟨y, t, hyt⟩ := List.exists_cons_of_ne_nil hrest
      have hlast' : rest.getLast? = some a := by
        rw [hyt]
        rw [hyt, List.getLast?_cons_cons] at hlast
        exact hlast
      have hmem : a ∈ rest := mem_of_getLast?_eq_some hlast'
      have hx : x ≠ a := by
        intro hxa
        exact (List.nodup_cons.mp hnd).1 (hxa ▸ hmem)
      have hrec := ih (List.nodup_cons.mp hnd).2 hlast'
      have hstep : pyIndex (x :: rest) a = (pyIndex rest a).map (· + 1) := by
        simp [pyIndex, hx]
      rw [hstep, hrec]
      have hlen : 0 < rest.length := List.length_pos.mpr hrest
      have harith : rest.length - 1 + 1 = (x :: rest).length - 1 := by
        simp only [List.length_cons]
        omega
      simp [harith]

/-- Anatomy of a successful `player_for_user_id`. -/
theorem player_for_user_id_ok {g : Game} {uid : Nat} {p : Player}
    (h : g.player_for_user_id uid = .ok p) :
    g.game_state.players.find? (fun q => decide (q.user_id = uid)) = some p := by
  unfold Game.player_for_user_id at h
  cases hf : g.game_state.players.find? (fun q => decide (q.user_id = uid)) with
  | none => rw [hf] at h; exact absurd h (by simp)
  | some q => rw [hf] at h; injection h with h; rw [h]

/-- `player_after` on a well-formed order: it succeeds, returns the player
of the cyclically next user id, and that id differs from the leaving one. -/
theorem player_after_ok (g : Game) (p : Player)
    (hnd : g.turn_order.Nodup) (hmem : p.user_id ∈ g.turn_order)
    (hlen2 : 2 ≤ g.turn_order.length)
    (hplayers : ∀ uid ∈ g.turn_order, uid ≠ p.user_id →
      ∃ q, g.game_state.players.find? (fun r => decide (r.user_id = uid)) = some q) :
    ∃ nextUid next, nextInCyclicOrder g.turn_order p.user_id = some nextUid ∧
      nextUid ≠ p.user_id ∧
      g.game_state.players.find? (fun r => decide (r.user_id = nextUid)) = some next ∧
      g.player_after p = .ok next := by
  have hne : g.turn_order ≠ [] := by
    intro h
    rw [h] at hmem
    simp at hmem
  obtain ⟨lastUid, hlast⟩ :=
    Option.isSome_iff_exists.mp (List.getLast?_isSome.mpr hne)
  unfold Game.player_after
  simp only [hlast]
  by_cases hl : lastUid = p.user_id
  · -- the leaving player is last in the order: wrap to the head
    rw [if_pos hl]
    obtain ⟨u0, hu0⟩ := Option.isSome_iff_exists.mp (List.head?_isSome.mpr hne)
    simp only [hu0]
    have hu0mem : u0 ∈ g.turn_order := List.mem_of_mem_head? hu0
    have hu0ne : u0 ≠ p.user_id := by
      rcases List.exists_cons_of_ne_nil hne with ⟨x, rest, hx⟩
      have hrestne : rest ≠ [] := by
        intro h0
        rw [hx, h0] at hlen2
        simp at hlen2
      have hxu0 : u0 = x := by
        rw [hx] at hu0
        injection hu0 with h
        exact h.symm
      have hlast' : lastUid ∈ rest := by
        have hc : (x :: rest).getLast? = some lastUid := by rw [← hx]; exact hlast
        obtain ⟨y, t, hyt⟩ := List.exists_cons_of_ne_nil hrestne
        rw [hyt, List.getLast?_cons_cons] at hc
        rw [hyt]
        exact mem_of_getLast?_eq_some hc
      intro hu0p
      have : x ∈ rest := by
        rw [← hxu0, hu0p, ← hl]
        exact hlast'
      rw [hx] at hnd
      exact (List.nodup_cons.mp hnd).1 this
    obtain ⟨next, hnext⟩ := hplayers u0 hu0mem hu0ne
    refine ⟨u0, next, ?_, hu0ne, hnext, ?_⟩
    · unfold nextInCyclicOrder
      have h1 : (g.turn_order.length - 1 + 1) % g.turn_order.length = 0 := by
        have h2 : g.turn_order.length - 1 + 1 = g.turn_order.length := by omega
        rw [h2]
        exact Nat.mod_self _
      simp only [pyIndex_getLast hnd (hl ▸ hlast), h1]
      rw [← List.head?_eq_getElem?]
      exact hu0
    · unfold Game.player_for_user_id
      rw [hnext]
  · -- the leaving player is not last: take the successor index
    rw [if_neg hl]
    obtain ⟨i, hi⟩ := pyIndex_of_mem hmem
    simp only [hi]
    have hgeti : g.turn_order[i]? = some p.user_id := pyIndex_getElem hi
    obtain ⟨hilt, hgeti'⟩ := List.getElem?_eq_some.mp hgeti
    have hi1 : i + 1 < g.turn_order.length := by
      rcases Nat.lt_or_ge (i + 1) g.turn_order.length with h | h
      · exact h
      · exfalso
        have hieq : i = g.turn_order.length - 1 := by omega
        rw [List.getLast?_eq_getElem?, ← hieq] at hlast
        exact hl (Option.some.inj (hlast.symm.trans hgeti))
    have hget1 : g.turn_order[i + 1]? = some (g.turn_order.get ⟨i + 1, hi1⟩) :=
      List.getElem?_eq_some.mpr ⟨hi1, rfl⟩
    simp only [hget1]
    set u' := g.turn_order.get ⟨i + 1, hi1⟩ with hu'
    have hu'mem : u' ∈ g.turn_order := List.get_mem _ _ _
    have hu'ne : u' ≠ p.user_id := by
      intro h
      have hgeti'' : g.turn_order.get ⟨i, hilt⟩ = p.user_id := hgeti'
      have hx : g.turn_order.get ⟨i + 1, hi1⟩ = g.turn_order.get ⟨i, hilt⟩ := by
        rw [← hu', h, hgeti'']
      have hfin := (List.Nodup.get_inj_iff hnd).mp hx
      have hvi : i + 1 = i := congrArg Fin.val hfin
      omega
    obtain ⟨next, hnext⟩ := hplayers u' hu'mem hu'ne
    refine ⟨u', next, ?_, hu'ne, hnext, ?_⟩
    · unfold nextInCyclicOrder
      simp only [hi, Nat.mod_eq_of_lt hi1]
      exact hget1
    · unfold Game.player_for_user_id
      rw [hnext]

/-! ## C5 — draw -/

/-- Sorting on tileset creation preserves the multiset of tiles. -/
theorem create_tiles_coe (l : List Nat) :
    ((Tileset.create l).tiles : Multiset Nat) = ↑l :=
  Multiset.coe_eq_coe.mpr (List.perm_insertionSort _ l)

/-- Replacing the (unique, by id-nodup) slot of `p` by a same-id player
does not change lookups of other user ids. -/
theorem find_uid_replace_preserve {ps : List Player} {p p' : Player} {uid : Nat}
    (hid : p'.id = p.id) (hmem : p ∈ ps)
    (hnodup : (ps.map Player.id).Nodup)
    (hpuid : p.user_id ≠ uid) (hp'uid : p'.user_id ≠ uid) :
    (replaceFirstById ps p').find? (fun r => decide (r.user_id = uid)) =
      ps.find? (fun r => decide (r.user_id = uid)) := by
  induction ps with
  | nil => rfl
  | cons q rest ih =>
    unfold replaceFirstById
    by_cases hq : q.id = p'.id
    · rw [if_pos hq]
      have hqp : q = p := by
        rcases List.mem_cons.mp hmem with h | h
        · exact h.symm
        · exfalso
          have hin : p.id ∈ rest.map Player.id := List.mem_map_of_mem _ h
          have hhead := (List.nodup_cons.mp hnodup).1
          rw [List.mem_cons] at hmem
          exact hhead (by rw [hq, hid]; exact hin)
      rw [List.find?_cons_of_neg _ (by simp [hp'uid]),
        List.find?_cons_of_neg _ (by simp [hqp, hpuid])]
    · rw [if_neg hq]
      have hpr : p ∈ rest := by
        rcases List.mem_cons.mp hmem with h | h
        · exact absurd (by rw [← h]; exact hid.symm) hq
        · exact h
      by_cases hqu : q.user_id = uid
      · rw [List.find?_cons_of_pos _ (by simp [hqu]),
          List.find?_cons_of_pos _ (by simp [hqu])]
      · rw [List.find?_cons_of_neg _ (by simp [hqu]),
          List.find?_cons_of_neg _ (by simp [hqu])]
        exact ih hpr (List.nodup_cons.mp hnodup).2

/-- `with_drawn_tile` succeeds when the player is in the game. -/
theorem with_drawn_tile_ok {g : Game} {tile : Nat} {p : Player}
    (hmem : p ∈ g.game_state.players) :
    g.with_drawn_tile tile p =
      .ok { g with game_state :=
              { g.game_state with
                players := replaceFirstById g.game_state.players
                             (p.with_rack (p.rack.with_new_tile tile)) } } := by
  unfold Game.with_drawn_tile GameState.with_updated_player
  rw [if_pos (List.any_eq_true.mpr ⟨p, hmem, by simp [Player.with_rack]⟩), exbind_ok]

/-- `with_next_turn` on a player still holding tiles: a fresh turn for the
player returned by `player_after`. -/
theorem with_next_turn_ok {g : Game} {p next : Player} (hrack : p.rack.tiles ≠ [])
    (hafter : g.player_after p = .ok next) :
    g.with_next_turn p = .ok { g with
      turn := { id := 0, game_id := g.id, player_id := next.id,
                starting_rack := next.rack, starting_board := g.game_state.board,
                moves := [], revision := 0 } } := by
  unfold Game.with_next_turn
  rw [if_neg hrack, hafter, exbind_ok]

/-- The successful branch of draw, in a well-formed game (duplicate-free
player ids, a duplicate-free turn order of at least two user ids covering
the players) with no winner, whose turn is held by the acting user at
revision 0, with a non-empty pile and a non-empty acting rack: draw
succeeds, removes exactly the picked tile from the pile, adds it to the
acting rack, produces no winner, and starts a fresh turn (revision 0,
empty ledger, starting board = current board) for the player of the
cyclically next user in the turn order, with that player's rack as
starting rack. -/
theorem draw_ok_spec (g : Game) (uid : Nat) (pick : List Nat → Nat)
    (hpick : ∀ l, l ≠ [] → pick l ∈ l)
    (p : Player) (hens : GamesService.ensure_game_player g uid = .ok p)
    (hrev : g.turn.revision = 0)
    (hpile : g.game_state.pile ≠ [])
    (hrack : p.rack.tiles ≠ [])
    (hidnd : (g.game_state.players.map Player.id).Nodup)
    (hordnd : g.turn_order.Nodup)
    (hlen2 : 2 ≤ g.turn_order.length)
    (hmemord : p.user_id ∈ g.turn_order)
    (hplayers : ∀ u ∈ g.turn_order, ∃ q ∈ g.game_state.players, q.user_id = u) :
    ∃ tile g' nextUid next,
      GamesService.draw g uid pick = .ok (tile, g') ∧
      tile ∈ g.game_state.pile ∧
      (g.game_state.pile : Multiset Nat) = tile ::ₘ ↑g'.game_state.pile ∧
      (∃ p', g'.game_state.players.find? (fun q => decide (q.user_id = uid)) = some p' ∧
        (p'.rack.tiles : Multiset Nat) = tile ::ₘ ↑p.rack.tiles) ∧
      g'.winner = none ∧
      nextInCyclicOrder g.turn_order p.user_id = some nextUid ∧
      g.game_state.players.find? (fun q => decide (q.user_id = nextUid)) = some next ∧
      g'.turn.player_id = next.id ∧ g'.turn.starting_rack = next.rack ∧
      g'.turn.starting_board = g.game_state.board ∧
      g'.turn.revision = 0 ∧ g'.turn.moves = [] := by
  obtain ⟨hw, hf, hpid⟩ := ensure_game_player_ok hens
  have hpuid : p.user_id = uid := by simpa using List.find?_some hf
  have hpmem : p ∈ g.game_state.players := List.mem_of_find?_eq_some hf
  have htmem : pick g.game_state.pile ∈ g.game_state.pile := hpick _ hpile
  set T : Nat := pick g.game_state.pile with hT
  set P2 : Player := p.with_rack (p.rack.with_new_tile T) with hP2
  set G1 : Game :=
    { g with game_state :=
               { g.game_state with pile := g.game_state.pile.erase T } } with hG1
  set G2 : Game :=
    { g with game_state :=
               { g.game_state with
                 pile := g.game_state.pile.erase T,
                 players := replaceFirstById g.game_state.players P2 } } with hG2
  have hdrawn : G1.with_drawn_tile T p = .ok G2 := with_drawn_tile_ok hpmem
  -- the next player, computed on the post-draw game
  have hafter := player_after_ok G2 p hordnd hmemord hlen2 ?succ
  case succ =>
    intro u hu hne
    obtain ⟨q, hqmem, hq⟩ := hplayers u hu
    have horig : (g.game_state.players.find?
        (fun r => decide (r.user_id = u))).isSome = true :=
      List.find?_isSome.mpr ⟨q, hqmem, by simp [hq]⟩
    obtain ⟨q', hq'⟩ := Option.isSome_iff_exists.mp horig
    refine ⟨q', ?_⟩
    show (replaceFirstById g.game_state.players P2).find?
      (fun r => decide (r.user_id = u)) = some q'
    rw [@find_uid_replace_preserve g.game_state.players p P2 u rfl hpmem hidnd
      (Ne.symm hne) (show P2.user_id ≠ u from Ne.symm hne)]
    exact hq'
  obtain ⟨nextUid, next, hcyc, hnextne, hnextfind2, hafter2⟩ := hafter
  have hnextfind : g.game_state.players.find?
      (fun r => decide (r.user_id = nextUid)) = some next := by
    have hpres := @find_uid_replace_preserve g.game_state.players p P2 nextUid
      rfl hpmem hidnd (Ne.symm hnextne)
      (show P2.user_id ≠ nextUid from Ne.symm hnextne)
    rw [← hpres]
    exact hnextfind2
  set G3 : Game := { G2 with
    turn := { id := 0, game_id := g.id, player_id := next.id,
              starting_rack := next.rack, starting_board := g.game_state.board,
              moves := [], revision := 0 } } with hG3
  have hnextturn : G2.with_next_turn p = .ok G3 := with_next_turn_ok hrack hafter2
  have hdraw : GamesService.draw g uid pick = .ok (T, G3) := by
    unfold GamesService.draw
    rw [hens, exbind_ok, if_neg (by omega), if_neg hpile]
    simp only [← hT, ← hG1, hdrawn, exbind_ok, hnextturn]
  refine ⟨T, G3, nextUid, next, hdraw, htmem, ?_, ?_, hw, hcyc, hnextfind,
    rfl, rfl, rfl, rfl, rfl⟩
  · -- pile conservation
    show (g.game_state.pile : Multiset Nat) = T ::ₘ ↑(g.game_state.pile.erase T)
    exact Multiset.coe_eq_coe.mpr (List.perm_cons_erase htmem)
  · -- the acting rack gained exactly the drawn tile
    refine ⟨P2, ?_, ?_⟩
    · show (replaceFirstById g.game_state.players P2).find?
        (fun q => decide (q.user_id = uid)) = some P2
      exact find_uid_replaceFirstById hf rfl (show p.user_id = uid from hpuid)
    · show ((Tileset.create (p.rack.tiles ++ [T])).tiles : Multiset Nat) =
        T ::ₘ ↑p.rack.tiles
      rw [create_tiles_coe, ← Multiset.coe_add]
      show (p.rack.tiles : Multiset Nat) + {T} = T ::ₘ ↑p.rack.tiles
      rw [add_comm, Multiset.singleton_add]

/-- C5 (amended).  Draw, for a game whose turn the acting user's player
holds and whose winner is null: with moves already made this turn
(revision > 0) it fails with `moves_performed`; at revision 0 with an
empty pile the pick raises `SequenceEmptyError`; and at revision 0 in a
well-formed game (duplicate-free player ids, duplicate-free turn order of
at least two user ids covering the players) with a non-empty pile and a
non-empty acting rack it removes exactly one tile from the pile, appends
it to the acting rack, leaves the winner null, and starts a fresh turn
(revision 0, empty ledger, starting board = current board) for the player
of the cyclically next user in the turn order. -/
theorem draw_spec (g : Game) (uid : Nat) (pick : List Nat → Nat)
    (p : Player) (hens : GamesService.ensure_game_player g uid = .ok p) :
    (0 < g.turn.revision →
      GamesService.draw g uid pick = .error .moves_performed) ∧
    (g.turn.revision = 0 → g.game_state.pile = [] →
      GamesService.draw g uid pick = .error .sequence_empty) ∧
    ((∀ l, l ≠ [] → pick l ∈ l) →
      g.turn.revision = 0 →
      g.game_state.pile ≠ [] →
      p.rack.tiles ≠ [] →
      (g.game_state.players.map Player.id).Nodup →
      g.turn_order.Nodup →
      2 ≤ g.turn_order.length →
      p.user_id ∈ g.turn_order →
      (∀ u ∈ g.turn_order, ∃ q ∈ g.game_state.players, q.user_id = u) →
      ∃ tile g' nextUid next,
        GamesService.draw g uid pick = .ok (tile, g') ∧
        tile ∈ g.game_state.pile ∧
        (g.game_state.pile : Multiset Nat) = tile ::ₘ ↑g'.game_state.pile ∧
        (∃ p', g'.game_state.players.find?
            (fun q => decide (q.user_id = uid)) = some p' ∧
          (p'.rack.tiles : Multiset Nat) = tile ::ₘ ↑p.rack.tiles) ∧
        g'.winner = none ∧
        nextInCyclicOrder g.turn_order p.user_id = some nextUid ∧
        g.game_state.players.find? (fun q => decide (q.user_id = nextUid)) = some next ∧
        g'.turn.player_id = next.id ∧ g'.turn.starting_rack = next.rack ∧
        g'.turn.starting_board = g.game_state.board ∧
        g'.turn.revision = 0 ∧ g'.turn.moves = []) := by
  refine ⟨?_, ?_, ?_⟩
  · intro hrev
    unfold GamesService.draw
    rw [hens, exbind_ok, if_pos hrev]
  · intro hrev hpile
    unfold GamesService.draw
    rw [hens, exbind_ok, if_neg (by omega), if_pos hpile]
  · intro hpick hrev hpile hrack hidnd hordnd hlen2 hmemord hplayers
    exact draw_ok_spec g uid pick hpick p hens hrev hpile hrack hidnd hordnd
      hlen2 hmemord hplayers

/-- A game value with no winner where the turn holder (user 10) has an
empty rack at revision 0. -/
def gC5 : Game where
  id := 5
  gameroom_id := 6
  game_state :=
    { id := 7, game_id := 5,
      players := [{ id := 1, name := "A", rack := ⟨[]⟩, user_id := 10 },
                  { id := 2, name := "B", rack := ⟨[5]⟩, user_id := 20 }],
      board := ⟨[]⟩, pile := [0] }
  turn :=
    { id := 100, game_id := 5, player_id := 1,
      starting_rack := ⟨[]⟩, starting_board := ⟨[]⟩, moves := [], revision := 0 }
  turn_order := [10, 20]
  made_meld := []
  winner := none

/-- Counterexample to C5 as stated: on `gC5` (winner null, turn held by the
acting user, revision 0) the draw succeeds and returns a game whose winner
is not null — `with_next_turn` is called with the stale pre-draw player
object, whose empty rack triggers the winner branch. -/
theorem draw_can_return_winner :
    (GamesService.draw gC5 10 (fun l => l.headD 0)).toOption.map
        (fun r => r.2.winner) =
      some (some { id := 1, name := "A", rack := ⟨[]⟩, user_id := 10 }) := by
  decide

/-- A fresh two-player game: user 10 holds the turn at revision 0. -/
def gW0 : Game where
  id := 5
  gameroom_id := 6
  game_state :=
    { id := 7, game_id := 5,
      players := [{ id := 1, name := "A", rack := ⟨[0, 1, 2]⟩, user_id := 10 },
                  { id := 2, name := "B", rack := ⟨[3, 4]⟩, user_id := 20 }],
      board := ⟨[]⟩, pile := [9, 11] }
  turn :=
    { id := 100, game_id := 5, player_id := 1,
      starting_rack := ⟨[0, 1, 2]⟩, starting_board := ⟨[]⟩, moves := [], revision := 0 }
  turn_order := [10, 20]
  made_meld := []
  winner := none

/-- `gW0` after one move of the turn (revision 1). -/
def gW1r : Game :=
  { gW0 with
    turn := { id := 100, game_id := 5, player_id := 1,
              starting_rack := ⟨[0, 1, 2]⟩, starting_board := ⟨[]⟩,
              moves := [], revision := 1 } }

/-- `gW0` with an exhausted pile. -/
def gW0e : Game :=
  { gW0 with
    game_state :=
      { id := 7, game_id := 5,
        players := [{ id := 1, name := "A", rack := ⟨[0, 1, 2]⟩, user_id := 10 },
                    { id := 2, name := "B", rack := ⟨[3, 4]⟩, user_id := 20 }],
        board := ⟨[]⟩, pile := [] } }

/-- Witness for the amended C5 on concrete games: a made move forces
`moves_performed`, an empty pile raises the sequence error, and a normal
draw moves exactly one tile and starts the next player's turn. -/
theorem draw_spec_witness :
    GamesService.draw gW1r 10 (fun l => l.headD 0) = .error .moves_performed ∧
    GamesService.draw gW0e 10 (fun l => l.headD 0) = .error .sequence_empty ∧
    ∃ tile g' nextUid next,
      GamesService.draw gW0 10 (fun l => l.headD 0) = .ok (tile, g') ∧
      tile ∈ gW0.game_state.pile ∧
      (gW0.game_state.pile : Multiset Nat) = tile ::ₘ ↑g'.game_state.pile ∧
      (∃ p', g'.game_state.players.find? (fun q => decide (q.user_id = 10)) = some p' ∧
        (p'.rack.tiles : Multiset Nat) =
          tile ::ₘ ↑(Player.mk 1 "A" ⟨[0, 1, 2]⟩ 10).rack.tiles) ∧
      g'.winner = none ∧
      nextInCyclicOrder gW0.turn_order (Player.mk 1 "A" ⟨[0, 1, 2]⟩ 10).user_id =
        some nextUid ∧
      gW0.game_state.players.find? (fun q => decide (q.user_id = nextUid)) = some next ∧
      g'.turn.player_id = next.id ∧ g'.turn.starting_rack = next.rack ∧
      g'.turn.starting_board = gW0.game_state.board ∧
      g'.turn.revision = 0 ∧ g'.turn.moves = [] := by
  refine ⟨?_, ?_, ?_⟩
  · exact (draw_spec gW1r 10 (fun l => l.headD 0)
      { id := 1, name := "A", rack := ⟨[0, 1, 2]⟩, user_id := 10 } (by decide)).1
      (by decide)
  · exact (draw_spec gW0e 10 (fun l => l.headD 0)
      { id := 1, name := "A", rack := ⟨[0, 1, 2]⟩, user_id := 10 } (by decide)).2.1
      rfl rfl
  · exact (draw_spec gW0 10 (fun l => l.headD 0)
      { id := 1, name := "A", rack := ⟨[0, 1, 2]⟩, user_id := 10 } (by decide)).2.2
      headD_mem rfl (by decide) (by decide) (by decide) (by decide) (by decide)
      (by decide) (by decide)

/-! ## C2 — undo/redo roundtrip -/

/-- The rack of the acting user's (first) player. -/
def playerRack (g : Game) (uid : Nat) : Option Tileset :=
  (g.game_state.players.find? (fun q => decide (q.user_id = uid))).map Player.rack

/-- Reachable-turn ledger invariant: every revision from 1 up to the
current one has a ledger entry. -/
def LedgerBelow (t : Turn) : Prop :=
  ∀ i, 1 ≤ i → i ≤ t.revision → ∃ mv ∈ t.moves, mv.revision = i

/-- A sequence of `move` operations. -/
def iterMoves (uid : Nat) : Game → List (List (List Nat)) → Except Err Game
  | g, [] => .ok g
  | g, b :: bs => do
    let g' ← GamesService.move g uid b
    iterMoves uid g' bs

/-- A sequence of `undo` operations. -/
def iterUndo (uid : Nat) : Game → Nat → Except Err Game
  | g, 0 => .ok g
  | g, n + 1 => do
    let g' ← GamesService.undo g uid
    iterUndo uid g' n

/-- `with_new_move` keeps the ledger invariant. -/
theorem with_new_move_ledger (t : Turn) (rk : Tileset) (bd : Board)
    (hled : LedgerBelow t) : LedgerBelow (t.with_new_move rk bd) := by
  intro i h1 h2
  have h2' : i ≤ t.revision + 1 := h2
  rcases Nat.lt_or_ge i (t.revision + 1) with hlt | hge
  · obtain ⟨mv, hmv, hrev⟩ := hled i h1 (by omega)
    refine ⟨mv, ?_, hrev⟩
    show mv ∈ t.moves.filter (fun mv => decide (mv.revision ≤ t.revision)) ++ [_]
    exact List.mem_append_left _
      (List.mem_filter.mpr ⟨hmv, by simp only [decide_eq_true_eq]; omega⟩)
  · have hieq : i = t.revision + 1 := by omega
    refine ⟨{ id := 0, turn_id := t.id, revision := t.revision + 1, rack := rk,
              board := bd }, ?_, by simp [hieq]⟩
    show _ ∈ t.moves.filter (fun mv => decide (mv.revision ≤ t.revision)) ++ [_]
    exact List.mem_append_right _ (List.mem_singleton.mpr rfl)

/-- `_ensure_game_player` still succeeds after a successful move. -/
theorem ensure_after_move {g g' : Game} {uid : Nat} {board : List (List Nat)}
    (h : GamesService.move g uid board = .ok g') :
    ∃ p', GamesService.ensure_game_player g' uid = .ok p' := by
  obtain ⟨p, rk, hens, hpm, hg'⟩ := move_ok h
  obtain ⟨hw, hf, hpid⟩ := ensure_game_player_ok hens
  refine ⟨p.with_rack rk, ensure_game_player_intro ?_ ?_ ?_⟩
  · rw [hg']
    exact hw
  · rw [hg']
    exact find_uid_replaceFirstById hf rfl (by simpa using List.find?_some hf)
  · rw [hg']
    exact hpid

/-- Anatomy of a successful sequence of moves: the revision advances by
the number of moves, the turn frame and winner are unchanged, the ledger
invariant is preserved, and the turn is still held. -/
theorem iterMoves_ok {cands : List (List (List Nat))} : ∀ {g g' : Game} {uid : Nat},
    iterMoves uid g cands = .ok g' →
    g'.turn.revision = g.turn.revision + cands.length ∧
    g'.turn.starting_board = g.turn.starting_board ∧
    g'.turn.starting_rack = g.turn.starting_rack ∧
    g'.turn.player_id = g.turn.player_id ∧
    g'.winner = g.winner ∧
    (LedgerBelow g.turn → LedgerBelow g'.turn) ∧
    (cands = [] → g' = g) ∧
    (cands ≠ [] → ∃ p', GamesService.ensure_game_player g' uid = .ok p') := by
  induction cands with
  | nil =>
    intro g g' uid h
    have hgg : g' = g := by
      unfold iterMoves at h
      injection h with h
      exact h.symm
    subst hgg
    exact ⟨by simp, rfl, rfl, rfl, rfl, fun h => h, fun _ => rfl,
      fun h => absurd rfl h⟩
  | cons b bs ih =>
    intro g g' uid h
    unfold iterMoves at h
    cases hm : GamesService.move g uid b with
    | error e => rw [hm, exbind_error] at h; exact absurd h (by simp)
    | ok g₁ =>
      rw [hm, exbind_ok] at h
      obtain ⟨hrev, hsb, hsr, hpid, hwin, hled, hnil, hens⟩ := ih h
      obtain ⟨p, rk, hensg, hpm, hg₁⟩ := move_ok hm
      have hg₁rev : g₁.turn.revision = g.turn.revision + 1 := by rw [hg₁]; rfl
      have hg₁sb : g₁.turn.starting_board = g.turn.starting_board := by rw [hg₁]; rfl
      have hg₁sr : g₁.turn.starting_rack = g.turn.starting_rack := by rw [hg₁]; rfl
      have hg₁pid : g₁.turn.player_id = g.turn.player_id := by rw [hg₁]; rfl
      have hg₁win : g₁.winner = g.winner := by rw [hg₁]
      refine ⟨by rw [hrev, hg₁rev]; simp [Nat.add_assoc, Nat.add_comm 1],
        by rw [hsb, hg₁sb], by rw [hsr, hg₁sr], by rw [hpid, hg₁pid],
        by rw [hwin, hg₁win], ?_, fun hfalse => (List.cons_ne_nil _ _ hfalse).elim,
        fun _ => ?_⟩
      · intro hl
        refine hled ?_
        rw [hg₁]
        exact with_new_move_ledger _ _ _ hl
      · by_cases hbs : bs = []
        · subst hbs
          rw [hnil rfl]
          exact ensure_after_move hm
        · exact hens hbs

/-- Anatomy of a successful undo: the revision drops by one, the ledger
and turn frame are kept, the turn is still held; undoing at revision 1
restores the starting board and starting rack. -/
theorem undo_ok {g : Game} {uid : Nat} {p : Player}
    (hens : GamesService.ensure_game_player g uid = .ok p)
    (hrev : 1 ≤ g.turn.revision)
    (hled : LedgerBelow g.turn) :
    ∃ g' p', GamesService.undo g uid = .ok g' ∧
      g'.turn = g.turn.with_revision (g.turn.revision - 1) ∧
      g'.winner = g.winner ∧
      GamesService.ensure_game_player g' uid = .ok p' ∧
      (g.turn.revision = 1 →
        g'.game_state.board = g.turn.starting_board ∧
        playerRack g' uid = some g.turn.starting_rack) := by
  obtain ⟨hw, hf, hpid⟩ := ensure_game_player_ok hens
  have hpmem : p ∈ g.game_state.players := List.mem_of_find?_eq_some hf
  have hpuid : p.user_id = uid := by simpa using List.find?_some hf
  by_cases h1 : g.turn.revision = 1
  · -- restore the starting snapshot
    have hprev : g.turn.previous_move = .ok none := by
      unfold Turn.previous_move
      rw [if_pos h1]
    have hupd : g.game_state.with_updated_player (p.with_rack g.turn.starting_rack) =
        .ok { g.game_state with
              players := replaceFirstById g.game_state.players
                           (p.with_rack g.turn.starting_rack) } := by
      unfold GameState.with_updated_player
      rw [if_pos (List.any_eq_true.mpr ⟨p, hpmem, by simp [Player.with_rack]⟩)]
    have hfind' := @find_uid_replaceFirstById g.game_state.players p
      (p.with_rack g.turn.starting_rack) uid hf rfl hpuid
    refine ⟨{ g with
              game_state := { g.game_state with
                players := replaceFirstById g.game_state.players
                             (p.with_rack g.turn.starting_rack),
                board := g.turn.starting_board },
              turn := g.turn.with_revision 0 },
      p.with_rack g.turn.starting_rack, ?_, ?_, rfl, ?_, ?_⟩
    · unfold GamesService.undo Game.with_undo
      rw [hens, exbind_ok, hprev, exbind_ok]
      simp only [hupd, exbind_ok]
      rfl
    · rw [h1]
    · exact ensure_game_player_intro hw hfind' hpid
    · intro _
      exact ⟨rfl, by unfold playerRack; rw [hfind']; rfl⟩
  · -- restore the ledger snapshot at revision - 1
    have h2 : 2 ≤ g.turn.revision := by omega
    obtain ⟨mv0, hmv0, hmv0rev⟩ := hled (g.turn.revision - 1) (by omega) (by omega)
    have hfsome : (g.turn.moves.find? (fun mv =>
        decide ((mv.revision : Int) = (g.turn.revision : Int) - 1))).isSome = true :=
      List.find?_isSome.mpr ⟨mv0, hmv0, by simp only [decide_eq_true_eq]; omega⟩
    obtain ⟨mv, hmv⟩ := Option.isSome_iff_exists.mp hfsome
    have hmvrev : mv.revision = g.turn.revision - 1 := by
      have := List.find?_some hmv
      simp only [decide_eq_true_eq] at this
      omega
    have hprev : g.turn.previous_move = .ok (some mv) := by
      unfold Turn.previous_move
      rw [if_neg h1, hmv]
    have hupd : g.game_state.with_updated_player (p.with_rack mv.rack) =
        .ok { g.game_state with
              players := replaceFirstById g.game_state.players
                           (p.with_rack mv.rack) } := by
      unfold GameState.with_updated_player
      rw [if_pos (List.any_eq_true.mpr ⟨p, hpmem, by simp [Player.with_rack]⟩)]
    have hfind' := @find_uid_replaceFirstById g.game_state.players p
      (p.with_rack mv.rack) uid hf rfl hpuid
    refine ⟨{ g with
              game_state := { g.game_state with
                players := replaceFirstById g.game_state.players
                             (p.with_rack mv.rack),
                board := mv.board },
              turn := g.turn.with_revision mv.revision },
      p.with_rack mv.rack, ?_, ?_, rfl, ?_, fun hc => absurd hc h1⟩
    · unfold GamesService.undo Game.with_undo
      rw [hens, exbind_ok, hprev, exbind_ok]
      simp only [hupd, exbind_ok]
      rfl
    · rw [hmvrev]
    · exact ensure_game_player_intro hw hfind' hpid

/-- A full stack of undos from revision `n` lands on the starting board and
starting rack at revision 0. -/
theorem iterUndo_ok : ∀ (n : Nat) (g : Game) (uid : Nat) (p : Player),
    GamesService.ensure_game_player g uid = .ok p →
    g.turn.revision = n →
    LedgerBelow g.turn →
    ∃ g'', iterUndo uid g n = .ok g'' ∧
      g''.turn.starting_board = g.turn.starting_board ∧
      g''.turn.starting_rack = g.turn.starting_rack ∧
      g''.turn.revision = 0 ∧
      (1 ≤ n → g''.game_state.board = g.turn.starting_board ∧
        playerRack g'' uid = some g.turn.starting_rack) ∧
      (n = 0 → g'' = g) := by
  intro n
  induction n with
  | zero =>
    intro g uid p _ hrev _
    exact ⟨g, rfl, rfl, rfl, hrev, fun h => absurd h (by omega), fun _ => rfl⟩
  | succ n ih =>
    intro g uid p hens hrev hled
    obtain ⟨g₁, p₁, hundo, hturn₁, hwin₁, hens₁, hone⟩ :=
      undo_ok hens (by omega) hled
    have hrev₁ : g₁.turn.revision = n := by
      rw [hturn₁]
      show g.turn.revision - 1 = n
      omega
    have hled₁ : LedgerBelow g₁.turn := by
      intro i hi1 hi2
      have hi2' : i ≤ g.turn.revision - 1 := by
        rw [hturn₁] at hi2
        exact hi2
      obtain ⟨mv, hmv, hrv⟩ := hled i hi1 (by omega)
      refine ⟨mv, ?_, hrv⟩
      rw [hturn₁]
      exact hmv
    have hsb₁ : g₁.turn.starting_board = g.turn.starting_board := by rw [hturn₁]; rfl
    have hsr₁ : g₁.turn.starting_rack = g.turn.starting_rack := by rw [hturn₁]; rfl
    obtain ⟨g'', hiter, hsb, hsr, hrev0, hge1, h0⟩ := ih g₁ uid p₁ hens₁ hrev₁ hled₁
    have hchain : iterUndo uid g (n + 1) = .ok g'' := by
      unfold iterUndo
      rw [hundo, exbind_ok]
      exact hiter
    refine ⟨g'', hchain, by rw [hsb, hsb₁], by rw [hsr, hsr₁], hrev0, fun _ => ?_,
      fun hc => absurd hc (by omega)⟩
    by_cases hn : n = 0
    · subst hn
      rw [h0 rfl]
      exact hone (by omega)
    · obtain ⟨hb, hr⟩ := hge1 (by omega)
      exact ⟨by rw [hb, hsb₁], by rw [hr, hsr₁]⟩

/-- `find?` skips a prefix on which the predicate is everywhere false. -/
theorem find?_append_of_none {α : Type} (p : α → Bool) {l₁ : List α} (l₂ : List α)
    (h : ∀ x ∈ l₁, p x = false) :
    (l₁ ++ l₂).find? p = l₂.find? p := by
  induction l₁ with
  | nil => rfl
  | cons a rest ih =>
    rw [List.cons_append,
      List.find?_cons_of_neg _ (by simp [h a (List.mem_cons_self a rest)])]
    exact ih (fun x hx => h x (List.mem_cons_of_mem a hx))

/-- Anatomy of a successful redo restoring the ledger entry just above the
revision: the board, the acting rack and the revision come from that entry. -/
theorem redo_anatomy {g g' : Game} {uid : Nat} {mvnew : Move}
    (h : GamesService.redo g uid = .ok g')
    (hfind : g.turn.moves.find? (fun mv => decide (mv.revision = g.turn.revision + 1))
      = some mvnew) :
    g'.game_state.board = mvnew.board ∧
    playerRack g' uid = some mvnew.rack ∧
    g'.turn.revision = mvnew.revision := by
  unfold GamesService.redo at h
  cases hens : GamesService.ensure_game_player g uid with
  | error e => rw [hens, exbind_error] at h; exact absurd h (by simp)
  | ok p =>
    rw [hens, exbind_ok] at h
    obtain ⟨hw, hf, hpid⟩ := ensure_game_player_ok hens
    have hpuid : p.user_id = uid := by simpa using List.find?_some hf
    have hpmem : p ∈ g.game_state.players := List.mem_of_find?_eq_some hf
    have hnext : g.turn.next_move = .ok mvnew := by
      unfold Turn.next_move
      rw [hfind]
    unfold Game.with_redo at h
    simp only [hnext, exbind_ok] at h
    have hupd : g.game_state.with_updated_player (p.with_rack mvnew.rack) =
        .ok { g.game_state with
              players := replaceFirstById g.game_state.players
                           (p.with_rack mvnew.rack) } := by
      unfold GameState.with_updated_player
      rw [if_pos (List.any_eq_true.mpr ⟨p, hpmem, by simp [Player.with_rack]⟩)]
    simp only [hupd, exbind_ok] at h
    injection h with h
    have hfind' := @find_uid_replaceFirstById g.game_state.players p
      (p.with_rack mvnew.rack) uid hf rfl hpuid
    refine ⟨?_, ?_, ?_⟩
    · rw [← h]
      rfl
    · rw [← h]
      show ((replaceFirstById g.game_state.players (p.with_rack mvnew.rack)).find?
        (fun q => decide (q.user_id = uid))).map Player.rack = some mvnew.rack
      rw [hfind']
      rfl
    · rw [← h]
      rfl

/-- **C2.** Undo/redo roundtrip within one turn: starting from a fresh turn
(revision 0, current board and acting rack matching the turn snapshots),
any sequence of `n` successful moves followed by `n` undos restores the
starting board, the starting rack, and revision 0; and, on any turn whose
ledger covers the revisions below the current one, a successful move
followed by undo followed by redo yields exactly the board, acting rack and
revision the original move produced. -/
theorem undo_redo_roundtrip (g : Game) (uid : Nat) :
    (∀ (p : Player) (cands : List (List (List Nat))) (g' : Game),
      GamesService.ensure_game_player g uid = .ok p →
      g.turn.revision = 0 →
      g.game_state.board = g.turn.starting_board →
      playerRack g uid = some g.turn.starting_rack →
      iterMoves uid g cands = .ok g' →
      ∃ g'', iterUndo uid g' cands.length = .ok g'' ∧
        g''.game_state.board = g.turn.starting_board ∧
        playerRack g'' uid = some g.turn.starting_rack ∧
        g''.turn.revision = 0) ∧
    (∀ (b : List (List Nat)) (g₁ g₂ g₃ : Game),
      LedgerBelow g.turn →
      GamesService.move g uid b = .ok g₁ →
      GamesService.undo g₁ uid = .ok g₂ →
      GamesService.redo g₂ uid = .ok g₃ →
      g₃.game_state.board = g₁.game_state.board ∧
      playerRack g₃ uid = playerRack g₁ uid ∧
      g₃.turn.revision = g₁.turn.revision) := by
  constructor
  · intro p cands g' hens hrev0 hb0 hr0 hiter
    obtain ⟨hrev, hsb, hsr, hpid, hwin, hledp, hnil, hensp⟩ := iterMoves_ok hiter
    by_cases hc : cands = []
    · subst hc
      rw [hnil rfl]
      exact ⟨g, rfl, hb0, hr0, hrev0⟩
    · obtain ⟨p', hensp'⟩ := hensp hc
      have hled0 : LedgerBelow g.turn := by
        intro i hi1 hi2
        rw [hrev0] at hi2
        exact absurd (Nat.le_trans hi1 hi2) (by decide)
      have hrevlen : g'.turn.revision = cands.length := by omega
      obtain ⟨g'', hiter', hsb'', hsr'', hrev'', hge1, -⟩ :=
        iterUndo_ok cands.length g' uid p' hensp' hrevlen (hledp hled0)
      have hlen1 : 1 ≤ cands.length := by
        cases cands with
        | nil => exact absurd rfl hc
        | cons a l => rw [List.length_cons]; omega
      obtain ⟨hb'', hr''⟩ := hge1 hlen1
      exact ⟨g'', hiter', by rw [hb'', hsb], by rw [hr'', hsr], hrev''⟩
  · intro b g₁ g₂ g₃ hled hm hu hr
    obtain ⟨p, rk, hens, hpm, hg₁⟩ := move_ok hm
    obtain ⟨hw, hf, hpid⟩ := ensure_game_player_ok hens
    have hpuid : p.user_id = uid := by simpa using List.find?_some hf
    have hrev₁ : g₁.turn.revision = g.turn.revision + 1 := by rw [hg₁]; rfl
    have hmoves₁ : g₁.turn.moves =
        (g.turn.moves.filter (fun mv => decide (mv.revision ≤ g.turn.revision))) ++
          [{ id := 0, turn_id := g.turn.id, revision := g.turn.revision + 1,
             rack := rk, board := Board.create b }] := by
      rw [hg₁]; rfl
    obtain ⟨p', hens₁⟩ := ensure_after_move hm
    have hled₁ : LedgerBelow g₁.turn := by
      rw [hg₁]
      exact with_new_move_ledger _ _ _ hled
    obtain ⟨g₂', p₂', hundo', hturn₂, hwin₂, hens₂, -⟩ :=
      undo_ok hens₁ (by omega) hled₁
    rw [hu] at hundo'
    injection hundo' with hgg
    subst hgg
    have hmv₂ : g₂.turn.moves = g₁.turn.moves := by rw [hturn₂]; rfl
    have hrev₂' : g₂.turn.revision = g.turn.revision := by
      rw [hturn₂]
      show g₁.turn.revision - 1 = g.turn.revision
      omega
    have hside : ∀ mv ∈ g.turn.moves.filter
        (fun mv => decide (mv.revision ≤ g.turn.revision)),
        (fun mv => decide (mv.revision = g.turn.revision + 1)) mv = false := by
      intro mv hmvf
      simp only [List.mem_filter, decide_eq_true_eq] at hmvf
      simp only [decide_eq_false_iff_not]
      omega
    have hfind : g₂.turn.moves.find?
        (fun mv => decide (mv.revision = g₂.turn.revision + 1)) =
        some { id := 0, turn_id := g.turn.id, revision := g.turn.revision + 1,
               rack := rk, board := Board.create b } := by
      rw [hrev₂', hmv₂, hmoves₁, find?_append_of_none _ _ hside]
      exact List.find?_cons_of_pos _ (by simp)
    obtain ⟨hb₃, hr₃, hrev₃⟩ := redo_anatomy hr hfind
    have hfind₁ : g₁.game_state.players.find? (fun q => decide (q.user_id = uid)) =
        some (p.with_rack rk) := by
      rw [hg₁]
      exact find_uid_replaceFirstById hf rfl hpuid
    have hr₁ : playerRack g₁ uid = some rk := by
      unfold playerRack
      rw [hfind₁]
      rfl
    have hb₁ : g₁.game_state.board = Board.create b := by rw [hg₁]
    refine ⟨?_, ?_, ?_⟩
    · rw [hb₃, hb₁]
    · rw [hr₃, hr₁]
    · rw [hrev₃, hrev₁]

/-- A fresh two-player game for exercising the undo/redo roundtrip. -/
def gC2 : Game where
  id := 30
  gameroom_id := 31
  game_state :=
    { id := 32, game_id := 30,
      players := [{ id := 1, name := "A", rack := ⟨[1, 2]⟩, user_id := 10 },
                  { id := 2, name := "B", rack := ⟨[3]⟩, user_id := 20 }],
      board := ⟨[]⟩, pile := [9] }
  turn :=
    { id := 101, game_id := 30, player_id := 1,
      starting_rack := ⟨[1, 2]⟩, starting_board := ⟨[]⟩, moves := [], revision := 0 }
  turn_order := [10, 20]
  made_meld := []
  winner := none

/-- The game after playing the single tile 1 on `gC2`. -/
def gC2m : Game := (GamesService.move gC2 10 [[1]]).toOption.getD gC2

/-- The game after undoing that move. -/
def gC2u : Game := (GamesService.undo gC2m 10).toOption.getD gC2

/-- The game after redoing it. -/
def gC2r : Game := (GamesService.redo gC2u 10).toOption.getD gC2

/-- Witness for C2 on the concrete game `gC2`: one move then one undo
restores the starting snapshots, and move-undo-redo lands back on the
post-move board, rack and revision. -/
theorem undo_redo_roundtrip_witness :
    (∃ g'', iterUndo 10 gC2m 1 = .ok g'' ∧
      g''.game_state.board = gC2.turn.starting_board ∧
      playerRack g'' 10 = some gC2.turn.starting_rack ∧
      g''.turn.revision = 0) ∧
    (gC2r.game_state.board = gC2m.game_state.board ∧
      playerRack gC2r 10 = playerRack gC2m 10 ∧
      gC2r.turn.revision = gC2m.turn.revision) := by
  obtain ⟨h1, h2⟩ := undo_redo_roundtrip gC2 10
  constructor
  · exact h1 { id := 1, name := "A", rack := ⟨[1, 2]⟩, user_id := 10 }
      [[[1]]] gC2m (by decide) rfl rfl (by decide) (by decide)
  · exact h2 [[1]] gC2m gC2u gC2r
      (fun i hi1 hi2 => absurd (Nat.le_trans hi1 hi2) (by decide))
      (by decide) (by decide) (by decide)

/-! ## C1 — tile conservation -/

/-- The multiset of tile ids on a board. -/
def boardM (b : Board) : Multiset Nat := (b.all_tiles : Multiset Nat)

/-- The combined multiset of tile ids on the racks of a list of players. -/
def racksOf : List Player → Multiset Nat
  | [] => 0
  | p :: ps => ↑p.rack.tiles + racksOf ps

/-- The players other than the one with the given id (the removal filter of
`with_disconnected_player`, and the complement of the turn holder used by
the snapshot views). -/
def erasePId (pid : Nat) (ps : List Player) : List Player :=
  ps.filter (fun q => decide (q.id ≠ pid))

/-- The full 106-tile deck as a multiset. -/
def deck : Multiset Nat := (TILE_IDS : Multiset Nat)

/-- All tile ids currently in play: board, pile and every rack. -/
def currentView (g : Game) : Multiset Nat :=
  boardM g.game_state.board + ↑g.game_state.pile + racksOf g.game_state.players

/-- A snapshot view of the turn: a recorded board and rack standing in for
the current board and the turn holder's current rack. -/
def snapView (g : Game) (bd : Board) (rk : Tileset) : Multiset Nat :=
  boardM bd + ↑g.game_state.pile + ↑rk.tiles +
    racksOf (erasePId g.turn.player_id g.game_state.players)

/-- Tile conservation: the current view is exactly the deck and, while the
game is running, so is every snapshot view of the turn (the starting one
and one per ledger move), so that undo and redo also conserve tiles. -/
def Conserved (g : Game) : Prop :=
  currentView g = deck ∧
  (g.winner = none →
    snapView g g.turn.starting_board g.turn.starting_rack = deck ∧
    ∀ mv ∈ g.turn.moves, snapView g mv.board mv.rack = deck)

/-- Well-formedness used by the conservation proofs: pairwise distinct
player ids. -/
def WF (g : Game) : Prop := (g.game_state.players.map Player.id).Nodup

instance decWF (g : Game) : Decidable (WF g) :=
  inferInstanceAs (Decidable ((g.game_state.players.map Player.id).Nodup))

instance decConserved (g : Game) : Decidable (Conserved g) :=
  inferInstanceAs (Decidable (currentView g = deck ∧
    (g.winner = none →
      snapView g g.turn.starting_board g.turn.starting_rack = deck ∧
      ∀ mv ∈ g.turn.moves, snapView g mv.board mv.rack = deck)))

theorem racksOf_cons (p : Player) (ps : List Player) :
    racksOf (p :: ps) = ↑p.rack.tiles + racksOf ps := rfl

theorem rack_le_racksOf {ps : List Player} {p : Player} (h : p ∈ ps) :
    (p.rack.tiles : Multiset Nat) ≤ racksOf ps := by
  induction ps with
  | nil => cases h
  | cons q rest ih =>
    rw [racksOf_cons]
    rcases List.mem_cons.mp h with rfl | h'
    · exact Multiset.le_add_right _ _
    · exact le_trans (ih h') (Multiset.le_add_left _ _)

theorem deck_nodup : Multiset.Nodup deck :=
  Multiset.coe_nodup.mpr (List.nodup_range 106)

theorem nodup_pySetDiff (a b : List Nat) : (pySetDiff a b).Nodup :=
  (List.nodup_dedup a).filter _

/-- Splitting a duplicate-free list as a sub-list plus its set difference,
at the multiset level. -/
theorem coe_split_setDiff {C D : List Nat} (hCD : ∀ t ∈ C, t ∈ D)
    (hC : C.Nodup) (hD : D.Nodup) :
    (D : Multiset Nat) = ↑C + ↑(pySetDiff D C) := by
  refine ((Multiset.Nodup.ext (Multiset.coe_nodup.mpr hD) ?_).mpr ?_)
  · rw [Multiset.nodup_add]
    refine ⟨Multiset.coe_nodup.mpr hC, Multiset.coe_nodup.mpr (nodup_pySetDiff D C),
      Multiset.disjoint_left.mpr ?_⟩
    intro a haC haS
    exact (mem_pySetDiff.mp (by simpa using haS)).2 (by simpa using haC)
  · intro a
    simp only [Multiset.mem_coe, Multiset.mem_add]
    constructor
    · intro haD
      by_cases hc : a ∈ C
      · exact Or.inl hc
      · exact Or.inr (mem_pySetDiff.mpr ⟨haD, hc⟩)
    · rintro (h | h)
      · exact hCD a h
      · exact (mem_pySetDiff.mp h).1

/-- The racks of a list with duplicate-free ids split at any member. -/
theorem racksOf_split {ps : List Player} {p : Player}
    (hmem : p ∈ ps) (hnd : (ps.map Player.id).Nodup) :
    racksOf ps = ↑p.rack.tiles + racksOf (erasePId p.id ps) := by
  induction ps with
  | nil => cases hmem
  | cons q rest ih =>
    rw [List.map_cons, List.nodup_cons] at hnd
    rcases List.mem_cons.mp hmem with rfl | hmem'
    · rw [racksOf_cons]
      have hfr : erasePId p.id (p :: rest) = rest := by
        unfold erasePId
        rw [List.filter_cons_of_neg (by simp)]
        apply List.filter_eq_self.mpr
        intro r hr
        simp only [decide_eq_true_eq]
        intro hEq
        exact hnd.1 (by rw [← hEq]; exact List.mem_map_of_mem Player.id hr)
      rw [hfr]
    · have hqid : q.id ≠ p.id := fun hEq =>
        hnd.1 (by rw [hEq]; exact List.mem_map_of_mem Player.id hmem')
      rw [racksOf_cons]
      have hstep : erasePId p.id (q :: rest) = q :: erasePId p.id rest := by
        unfold erasePId
        rw [List.filter_cons_of_pos (by simp [hqid])]
      rw [hstep, racksOf_cons, ih hmem' hnd.2, add_left_comm]

/-- The racks after replacing the unique slot of a given id. -/
theorem racksOf_replace {ps : List Player} {p p' : Player}
    (hmem : p ∈ ps) (hip : p'.id = p.id) (hnd : (ps.map Player.id).Nodup) :
    racksOf (replaceFirstById ps p') =
      ↑p'.rack.tiles + racksOf (erasePId p.id ps) := by
  induction ps with
  | nil => cases hmem
  | cons q rest ih =>
    rw [List.map_cons, List.nodup_cons] at hnd
    by_cases hq : q.id = p'.id
    · have hqp : q.id = p.id := by rw [hq, hip]
      unfold replaceFirstById
      rw [if_pos hq, racksOf_cons]
      have hfr : erasePId p.id (q :: rest) = rest := by
        unfold erasePId
        rw [List.filter_cons_of_neg (by simp [hqp])]
        apply List.filter_eq_self.mpr
        intro r hr
        simp only [decide_eq_true_eq]
        intro hEq
        exact hnd.1 (by rw [hqp, ← hEq]; exact List.mem_map_of_mem Player.id hr)
      rw [hfr]
    · have hqp : q.id ≠ p.id := by rw [← hip]; exact hq
      have hmem' : p ∈ rest := by
        rcases List.mem_cons.mp hmem with rfl | h'
        · exact absurd hip.symm hq
        · exact h'
      unfold replaceFirstById
      rw [if_neg hq, racksOf_cons, ih hmem' hnd.2]
      have hstep : erasePId p.id (q :: rest) = q :: erasePId p.id rest := by
        unfold erasePId
        rw [List.filter_cons_of_pos (by simp [hqp])]
      rw [hstep, racksOf_cons, add_left_comm]

/-- Replacing the slot of an id and then dropping that id is just dropping
that id. -/
theorem erasePId_replace (ps : List Player) (p' : Player) :
    erasePId p'.id (replaceFirstById ps p') = erasePId p'.id ps := by
  induction ps with
  | nil => rfl
  | cons q rest ih =>
    by_cases hq : q.id = p'.id
    · unfold replaceFirstById
      rw [if_pos hq]
      unfold erasePId
      rw [List.filter_cons_of_neg (by simp), List.filter_cons_of_neg (by simp [hq])]
    · unfold replaceFirstById
      rw [if_neg hq]
      unfold erasePId at ih ⊢
      rw [List.filter_cons_of_pos (by simp [hq]),
        List.filter_cons_of_pos (by simp [hq]), ih]

/-- Replacing a slot by a player with the same id keeps the id list. -/
theorem map_id_replaceFirstById (ps : List Player) (p' : Player) :
    (replaceFirstById ps p').map Player.id = ps.map Player.id := by
  induction ps with
  | nil => rfl
  | cons q rest ih =>
    unfold replaceFirstById
    by_cases hq : q.id = p'.id
    · rw [if_pos hq]
      simp [List.map_cons, hq]
    · rw [if_neg hq]
      simp [List.map_cons, ih]

/-- Dropping two ids commutes. -/
theorem erasePId_comm (a b : Nat) (ps : List Player) :
    erasePId a (erasePId b ps) = erasePId b (erasePId a ps) := by
  unfold erasePId
  rw [List.filter_filter, List.filter_filter]
  congr 1
  funext q
  rw [Bool.and_comm]

theorem current_board_nodup {g : Game} (h : currentView g = deck) :
    g.game_state.board.all_tiles.Nodup := by
  have hle : boardM g.game_state.board ≤ deck := by
    rw [← h]
    unfold currentView
    exact le_trans (Multiset.le_add_right _ _) (Multiset.le_add_right _ _)
  exact Multiset.coe_nodup.mp (Multiset.nodup_of_le hle deck_nodup)

theorem current_pile_nodup {g : Game} (h : currentView g = deck) :
    g.game_state.pile.Nodup := by
  have hle : (↑g.game_state.pile : Multiset Nat) ≤ deck := by
    rw [← h]
    unfold currentView
    exact le_trans (Multiset.le_add_left _ _) (Multiset.le_add_right _ _)
  exact Multiset.coe_nodup.mp (Multiset.nodup_of_le hle deck_nodup)

theorem expure_ok {α : Type} (a : α) : (pure a : Except Err α) = Except.ok a := rfl

/-- Decomposition of a successful undo: the restored board and rack are the
starting snapshots or those of a ledger move. -/
theorem undo_anatomy {g g' : Game} {uid : Nat}
    (h : GamesService.undo g uid = .ok g') :
    ∃ p bd rk r,
      GamesService.ensure_game_player g uid = .ok p ∧
      ((bd = g.turn.starting_board ∧ rk = g.turn.starting_rack) ∨
        ∃ mv ∈ g.turn.moves, bd = mv.board ∧ rk = mv.rack) ∧
      g' = { g with
             game_state := { g.game_state with
               players := replaceFirstById g.game_state.players (p.with_rack rk),
               board := bd },
             turn := g.turn.with_revision r } := by
  unfold GamesService.undo at h
  cases hens : GamesService.ensure_game_player g uid with
  | error e => rw [hens, exbind_error] at h; exact absurd h (by simp)
  | ok p =>
    rw [hens, exbind_ok] at h
    unfold Game.with_undo at h
    obtain ⟨hw, hf, hpid⟩ := ensure_game_player_ok hens
    have hpmem : p ∈ g.game_state.players := List.mem_of_find?_eq_some hf
    cases hprev : g.turn.previous_move with
    | error e => rw [hprev, exbind_error] at h; exact absurd h (by simp)
    | ok omv =>
      rw [hprev, exbind_ok] at h
      cases omv with
      | none =>
        replace h : (do
          let gs ← g.game_state.with_updated_player (p.with_rack g.turn.starting_rack)
          Except.ok { g with
            game_state := gs.with_board g.turn.starting_board,
            turn := g.turn.with_revision 0 }) = .ok g' := h
        have hupd : g.game_state.with_updated_player (p.with_rack g.turn.starting_rack) =
            .ok { g.game_state with
                  players := replaceFirstById g.game_state.players
                               (p.with_rack g.turn.starting_rack) } := by
          unfold GameState.with_updated_player
          rw [if_pos (List.any_eq_true.mpr ⟨p, hpmem, by simp [Player.with_rack]⟩)]
        simp only [hupd, exbind_ok] at h
        injection h with h
        exact ⟨p, g.turn.starting_board, g.turn.starting_rack, 0, rfl,
          Or.inl ⟨rfl, rfl⟩, h.symm⟩
      | some mv =>
        have hmv_mem : mv ∈ g.turn.moves := by
          unfold Turn.previous_move at hprev
          split at hprev
          · exact absurd hprev (by simp)
          · split at hprev
            · rename_i mv' hfind
              injection hprev with hprev
              injection hprev with hprev
              rw [← hprev]
              exact List.mem_of_find?_eq_some hfind
            · exact absurd hprev (by simp)
        replace h : (do
          let gs ← g.game_state.with_updated_player (p.with_rack mv.rack)
          Except.ok { g with
            game_state := gs.with_board mv.board,
            turn := g.turn.with_revision mv.revision }) = .ok g' := h
        have hupd : g.game_state.with_updated_player (p.with_rack mv.rack) =
            .ok { g.game_state with
                  players := replaceFirstById g.game_state.players
                               (p.with_rack mv.rack) } := by
          unfold GameState.with_updated_player
          rw [if_pos (List.any_eq_true.mpr ⟨p, hpmem, by simp [Player.with_rack]⟩)]
        simp only [hupd, exbind_ok] at h
        injection h with h
        exact ⟨p, mv.board, mv.rack, mv.revision, rfl,
          Or.inr ⟨mv, hmv_mem, rfl, rfl⟩, h.symm⟩

/-- Decomposition of a successful redo: board, rack and revision come from
a ledger move. -/
theorem redo_anatomy_full {g g' : Game} {uid : Nat}
    (h : GamesService.redo g uid = .ok g') :
    ∃ p mv, GamesService.ensure_game_player g uid = .ok p ∧ mv ∈ g.turn.moves ∧
      g' = { g with
             game_state := { g.game_state with
               players := replaceFirstById g.game_state.players (p.with_rack mv.rack),
               board := mv.board },
             turn := g.turn.with_revision mv.revision } := by
  unfold GamesService.redo at h
  cases hens : GamesService.ensure_game_player g uid with
  | error e => rw [hens, exbind_error] at h; exact absurd h (by simp)
  | ok p =>
    rw [hens, exbind_ok] at h
    unfold Game.with_redo at h
    obtain ⟨hw, hf, hpid⟩ := ensure_game_player_ok hens
    have hpmem : p ∈ g.game_state.players := List.mem_of_find?_eq_some hf
    cases hnext : g.turn.next_move with
    | error e => rw [hnext, exbind_error] at h; exact absurd h (by simp)
    | ok mv =>
      rw [hnext, exbind_ok] at h
      have hmv_mem : mv ∈ g.turn.moves := by
        unfold Turn.next_move at hnext
        split at hnext
        · rename_i mv' hfind
          injection hnext with hnext
          rw [← hnext]
          exact List.mem_of_find?_eq_some hfind
        · exact absurd hnext (by simp)
      have hupd : g.game_state.with_updated_player (p.with_rack mv.rack) =
          .ok { g.game_state with
                players := replaceFirstById g.game_state.players
                             (p.with_rack mv.rack) } := by
        unfold GameState.with_updated_player
        rw [if_pos (List.any_eq_true.mpr ⟨p, hpmem, by simp [Player.with_rack]⟩)]
      simp only [hupd, exbind_ok] at h
      injection h with h
      exact ⟨p, mv, rfl, hmv_mem, h.symm⟩

/-- Decomposition of a successful `with_next_turn`: either the acting rack
is empty and the player wins, or a fresh turn starts for the next player. -/
theorem with_next_turn_anatomy {g : Game} {p : Player} {g' : Game}
    (h : g.with_next_turn p = .ok g') :
    (p.rack.tiles = [] ∧ g' = { g with winner := some p }) ∨
    (p.rack.tiles ≠ [] ∧ ∃ next, g.player_after p = .ok next ∧
      g' = { g with
             turn := { id := 0, game_id := g.id, player_id := next.id,
                       starting_rack := next.rack,
                       starting_board := g.game_state.board,
                       moves := [], revision := 0 } }) := by
  unfold Game.with_next_turn at h
  split at h
  · rename_i hrk
    injection h with h
    exact Or.inl ⟨hrk, h.symm⟩
  · rename_i hrk
    cases hpa : g.player_after p with
    | error e => rw [hpa, exbind_error] at h; exact absurd h (by simp)
    | ok next =>
      simp only [hpa, exbind_ok] at h
      injection h with h
      exact Or.inr ⟨hrk, next, rfl, h.symm⟩

/-- Decomposition of a successful `end_turn` down to `with_next_turn` on a
game differing from the input at most in `made_meld`. -/
theorem end_turn_anatomy {dict : List (List Nat)} {g g' : Game} {uid : Nat}
    (h : GamesService.end_turn dict g uid = .ok g') :
    ∃ (p : Player) (g₀ : Game), GamesService.ensure_game_player g uid = .ok p ∧
      g₀.game_state = g.game_state ∧ g₀.turn = g.turn ∧ g₀.winner = g.winner ∧
      g₀.with_next_turn p = .ok g' := by
  unfold GamesService.end_turn at h
  cases hens : GamesService.ensure_game_player g uid with
  | error e => rw [hens, exbind_error] at h; exact absurd h (by simp)
  | ok p =>
    rw [hens, exbind_ok] at h
    split at h
    · exact absurd h (by simp)
    · cases hbv : ensure_board_valid dict g with
      | error e => rw [hbv, exbind_error] at h; exact absurd h (by simp)
      | ok u =>
        simp only [hbv, exbind_ok] at h
        split at h
        · cases hmv : ensure_meld_valid dict g.turn.starting_rack g.game_state.board
              g.turn.starting_board with
          | error e => rw [hmv, exbind_error] at h; exact absurd h (by simp)
          | ok u2 =>
            simp only [hmv, expure_ok, exbind_ok] at h
            exact ⟨p, { g with made_meld := g.made_meld ++ [uid] }, rfl,
              rfl, rfl, rfl, h⟩
        · simp only [expure_ok, exbind_ok] at h
          exact ⟨p, g, rfl, rfl, rfl, rfl, h⟩

/-- A player produced by `player_after` is one of the game's players. -/
theorem player_after_mem {g : Game} {p next : Player}
    (h : g.player_after p = .ok next) : next ∈ g.game_state.players := by
  unfold Game.player_after at h
  split at h
  · exact absurd h (by simp)
  · split at h
    · split at h
      · exact absurd h (by simp)
      · exact List.mem_of_find?_eq_some (player_for_user_id_ok h)
    · split at h
      · exact absurd h (by simp)
      · split at h
        · exact absurd h (by simp)
        · exact List.mem_of_find?_eq_some (player_for_user_id_ok h)

theorem current_rack_nodup {g : Game} (h : currentView g = deck)
    {p : Player} (hp : p ∈ g.game_state.players) : p.rack.tiles.Nodup := by
  have hle : (↑p.rack.tiles : Multiset Nat) ≤ deck := by
    rw [← h]
    unfold currentView
    exact le_trans (rack_le_racksOf hp) (Multiset.le_add_left _ _)
  exact Multiset.coe_nodup.mp (Multiset.nodup_of_le hle deck_nodup)

/-- A successful move conserves tiles: the tiles added to the board leave
the acting rack, and every snapshot view (including the one of the freshly
recorded move) still covers the deck. -/
theorem move_conserves {g g' : Game} {uid : Nat} {b : List (List Nat)}
    (hwf : WF g) (hinv : Conserved g)
    (h : GamesService.move g uid b = .ok g') :
    Conserved g' ∧ WF g' := by
  obtain ⟨hcur, hsnap⟩ := hinv
  obtain ⟨p, rk, hens, hpm, hg'⟩ := move_ok h
  obtain ⟨hw, hf, hpid⟩ := ensure_game_player_ok hens
  have hpmem : p ∈ g.game_state.players := List.mem_of_find?_eq_some hf
  obtain ⟨-, hrk, hcnd, hsub, hnewsub⟩ := perform_move_ok hpm
  have hbnd : g.game_state.board.all_tiles.Nodup := current_board_nodup hcur
  have hrknd : p.rack.tiles.Nodup := current_rack_nodup hcur hpmem
  have hsplit_board : ((Board.create b).all_tiles : Multiset Nat) =
      ↑g.game_state.board.all_tiles +
      ↑(pySetDiff (Board.create b).all_tiles g.game_state.board.all_tiles) :=
    coe_split_setDiff hsub hbnd hcnd
  have hsplit_rack : (p.rack.tiles : Multiset Nat) =
      ↑(pySetDiff (Board.create b).all_tiles g.game_state.board.all_tiles) +
      ↑(pySetDiff p.rack.tiles
        (pySetDiff (Board.create b).all_tiles g.game_state.board.all_tiles)) :=
    coe_split_setDiff hnewsub (nodup_pySetDiff _ _) hrknd
  have hrsplit : racksOf g.game_state.players =
      ↑p.rack.tiles + racksOf (erasePId p.id g.game_state.players) :=
    racksOf_split hpmem hwf
  have hpe : erasePId p.id g.game_state.players =
      erasePId g.turn.player_id g.game_state.players := by rw [hpid]
  have herase : erasePId g.turn.player_id
        (replaceFirstById g.game_state.players (p.with_rack rk)) =
      erasePId g.turn.player_id g.game_state.players := by
    rw [← hpid]
    exact erasePId_replace g.game_state.players (p.with_rack rk)
  have hrrep : racksOf (replaceFirstById g.game_state.players (p.with_rack rk)) =
      ↑rk.tiles + racksOf (erasePId p.id g.game_state.players) :=
    racksOf_replace hpmem rfl hwf
  have hmain : boardM (Board.create b) + ↑g.game_state.pile + ↑rk.tiles +
      racksOf (erasePId g.turn.player_id g.game_state.players) = deck := by
    have hthis := hcur
    unfold currentView at hthis
    rw [hrsplit, hsplit_rack, hpe] at hthis
    unfold boardM at hthis ⊢
    rw [hrk, create_tiles_coe, hsplit_board, ← hthis]
    abel
  refine ⟨⟨?_, ?_⟩, ?_⟩
  · rw [hg']
    show ((Board.create b).all_tiles : Multiset Nat) + ↑g.game_state.pile +
      racksOf (replaceFirstById g.game_state.players (p.with_rack rk)) = deck
    rw [hrrep, hpe, ← add_assoc]
    exact hmain
  · intro hwin'
    refine ⟨?_, ?_⟩
    · rw [hg']
      show boardM g.turn.starting_board + ↑g.game_state.pile +
        ↑g.turn.starting_rack.tiles +
        racksOf (erasePId g.turn.player_id
          (replaceFirstById g.game_state.players (p.with_rack rk))) = deck
      rw [herase]
      exact (hsnap hw).1
    · intro mv hmv
      rw [hg'] at hmv
      replace hmv : mv ∈ (g.turn.moves.filter
          (fun mv => decide (mv.revision ≤ g.turn.revision))) ++
          [{ id := 0, turn_id := g.turn.id, revision := g.turn.revision + 1,
             rack := rk, board := Board.create b }] := hmv
      rcases List.mem_append.mp hmv with hold | hnew1
      · have hdeck := (hsnap hw).2 mv (List.mem_filter.mp hold).1
        rw [hg']
        show boardM mv.board + ↑g.game_state.pile + ↑mv.rack.tiles +
          racksOf (erasePId g.turn.player_id
            (replaceFirstById g.game_state.players (p.with_rack rk))) = deck
        rw [herase]
        exact hdeck
      · have hmveq := List.mem_singleton.mp hnew1
        rw [hg']
        show boardM mv.board + ↑g.game_state.pile + ↑mv.rack.tiles +
          racksOf (erasePId g.turn.player_id
            (replaceFirstById g.game_state.players (p.with_rack rk))) = deck
        rw [herase, hmveq]
        exact hmain
  · rw [hg']
    show ((replaceFirstById g.game_state.players (p.with_rack rk)).map Player.id).Nodup
    rw [map_id_replaceFirstById]
    exact hwf

/-- Restoring a snapshot whose view covers the deck conserves tiles. -/
theorem restore_conserves {g : Game} {uid : Nat} {p : Player} {bd : Board}
    {rk : Tileset} {r : Nat}
    (hwf : WF g) (hinv : Conserved g)
    (hens : GamesService.ensure_game_player g uid = .ok p)
    (hview : snapView g bd rk = deck) :
    Conserved { g with
                game_state := { g.game_state with
                  players := replaceFirstById g.game_state.players (p.with_rack rk),
                  board := bd },
                turn := g.turn.with_revision r } ∧
    WF { g with
         game_state := { g.game_state with
           players := replaceFirstById g.game_state.players (p.with_rack rk),
           board := bd },
         turn := g.turn.with_revision r } := by
  obtain ⟨hcur, hsnap⟩ := hinv
  obtain ⟨hw, hf, hpid⟩ := ensure_game_player_ok hens
  have hpmem : p ∈ g.game_state.players := List.mem_of_find?_eq_some hf
  have hpe : erasePId p.id g.game_state.players =
      erasePId g.turn.player_id g.game_state.players := by rw [hpid]
  have herase : erasePId g.turn.player_id
        (replaceFirstById g.game_state.players (p.with_rack rk)) =
      erasePId g.turn.player_id g.game_state.players := by
    rw [← hpid]
    exact erasePId_replace g.game_state.players (p.with_rack rk)
  have hrrep : racksOf (replaceFirstById g.game_state.players (p.with_rack rk)) =
      ↑rk.tiles + racksOf (erasePId p.id g.game_state.players) :=
    racksOf_replace hpmem rfl hwf
  refine ⟨⟨?_, ?_⟩, ?_⟩
  · show boardM bd + ↑g.game_state.pile +
      racksOf (replaceFirstById g.game_state.players (p.with_rack rk)) = deck
    rw [hrrep, hpe, ← add_assoc]
    exact hview
  · intro hwin
    refine ⟨?_, ?_⟩
    · show boardM g.turn.starting_board + ↑g.game_state.pile +
        ↑g.turn.starting_rack.tiles +
        racksOf (erasePId g.turn.player_id
          (replaceFirstById g.game_state.players (p.with_rack rk))) = deck
      rw [herase]
      exact (hsnap hw).1
    · intro mv hmv
      replace hmv : mv ∈ g.turn.moves := hmv
      show boardM mv.board + ↑g.game_state.pile + ↑mv.rack.tiles +
        racksOf (erasePId g.turn.player_id
          (replaceFirstById g.game_state.players (p.with_rack rk))) = deck
      rw [herase]
      exact (hsnap hw).2 mv hmv
  · show ((replaceFirstById g.game_state.players (p.with_rack rk)).map Player.id).Nodup
    rw [map_id_replaceFirstById]
    exact hwf

/-- A successful undo conserves tiles. -/
theorem undo_conserves {g g' : Game} {uid : Nat}
    (hwf : WF g) (hinv : Conserved g)
    (h : GamesService.undo g uid = .ok g') :
    Conserved g' ∧ WF g' := by
  obtain ⟨p, bd, rk, r, hens, hsrc, hg'⟩ := undo_anatomy h
  obtain ⟨hw, -, -⟩ := ensure_game_player_ok hens
  have hview : snapView g bd rk = deck := by
    rcases hsrc with ⟨hb, hr⟩ | ⟨mv, hmv, hb, hr⟩
    · rw [hb, hr]
      exact (hinv.2 hw).1
    · rw [hb, hr]
      exact (hinv.2 hw).2 mv hmv
  rw [hg']
  exact restore_conserves hwf hinv hens hview

/-- A successful redo conserves tiles. -/
theorem redo_conserves {g g' : Game} {uid : Nat}
    (hwf : WF g) (hinv : Conserved g)
    (h : GamesService.redo g uid = .ok g') :
    Conserved g' ∧ WF g' := by
  obtain ⟨p, mv, hens, hmv, hg'⟩ := redo_anatomy_full h
  obtain ⟨hw, -, -⟩ := ensure_game_player_ok hens
  rw [hg']
  exact restore_conserves hwf hinv hens ((hinv.2 hw).2 mv hmv)

/-- Advancing the turn conserves tiles: the state is unchanged except for
the turn frame (or the winner flag), and the fresh snapshot views coincide
with the current view. -/
theorem with_next_turn_conserves {g g' : Game} {p : Player}
    (hwf : WF g) (hcur : currentView g = deck)
    (h : g.with_next_turn p = .ok g') :
    Conserved g' ∧ WF g' := by
  rcases with_next_turn_anatomy h with ⟨hrk, hg'⟩ | ⟨hrk, next, hpa, hg'⟩
  · rw [hg']
    refine ⟨⟨?_, ?_⟩, ?_⟩
    · show currentView g = deck
      exact hcur
    · intro hwin
      exact Option.noConfusion hwin
    · show (g.game_state.players.map Player.id).Nodup
      exact hwf
  · have hnmem : next ∈ g.game_state.players := player_after_mem hpa
    have hnsplit : racksOf g.game_state.players =
        ↑next.rack.tiles + racksOf (erasePId next.id g.game_state.players) :=
      racksOf_split hnmem hwf
    rw [hg']
    refine ⟨⟨?_, ?_⟩, ?_⟩
    · show currentView g = deck
      exact hcur
    · intro hwin
      refine ⟨?_, ?_⟩
      · show boardM g.game_state.board + ↑g.game_state.pile + ↑next.rack.tiles +
          racksOf (erasePId next.id g.game_state.players) = deck
        have hthis := hcur
        unfold currentView at hthis
        rw [hnsplit] at hthis
        rw [← hthis]
        abel
      · intro mv hmv
        exact absurd hmv (List.not_mem_nil mv)
    · show (g.game_state.players.map Player.id).Nodup
      exact hwf

/-- A successful `end_turn` conserves tiles. -/
theorem end_turn_conserves {dict : List (List Nat)} {g g' : Game} {uid : Nat}
    (hwf : WF g) (hinv : Conserved g)
    (h : GamesService.end_turn dict g uid = .ok g') :
    Conserved g' ∧ WF g' := by
  obtain ⟨p, g₀, hens, hgs, hturn, hwin, hnt⟩ := end_turn_anatomy h
  have hwf₀ : WF g₀ := by
    unfold WF
    rw [hgs]
    exact hwf
  have hcur₀ : currentView g₀ = deck := by
    unfold currentView boardM
    rw [hgs]
    exact hinv.1
  exact with_next_turn_conserves hwf₀ hcur₀ hnt

/-- A successful draw conserves tiles: the drawn tile moves from the pile
to the acting rack, and the turn advances. -/
theorem draw_conserves {g g' : Game} {uid t : Nat} {pick : List Nat → Nat}
    (hpick : ∀ l, l ≠ [] → pick l ∈ l)
    (hwf : WF g) (hinv : Conserved g)
    (h : GamesService.draw g uid pick = .ok (t, g')) :
    Conserved g' ∧ WF g' := by
  unfold GamesService.draw at h
  cases hens : GamesService.ensure_game_player g uid with
  | error e => rw [hens, exbind_error] at h; exact absurd h (by simp)
  | ok p =>
    rw [hens, exbind_ok] at h
    split at h
    · exact absurd h (by simp)
    · split at h
      · exact absurd h (by simp)
      · rename_i hrev hpile
        obtain ⟨hw, hf, hpid⟩ := ensure_game_player_ok hens
        have hpmem : p ∈ g.game_state.players := List.mem_of_find?_eq_some hf
        replace h : (do
          let g₂ ← ({ g with game_state := { g.game_state with
              pile := g.game_state.pile.erase (pick g.game_state.pile) } }
            : Game).with_drawn_tile (pick g.game_state.pile) p
          let g₃ ← g₂.with_next_turn p
          Except.ok (pick g.game_state.pile, g₃)) = .ok (t, g') := h
        have hdt : ({ g with game_state := { g.game_state with
              pile := g.game_state.pile.erase (pick g.game_state.pile) } }
            : Game).with_drawn_tile (pick g.game_state.pile) p =
            .ok { g with game_state := { g.game_state with
              players := replaceFirstById g.game_state.players
                (p.with_rack (p.rack.with_new_tile (pick g.game_state.pile))),
              pile := g.game_state.pile.erase (pick g.game_state.pile) } } := by
          unfold Game.with_drawn_tile GameState.with_updated_player
          rw [if_pos (List.any_eq_true.mpr ⟨p, hpmem, by simp [Player.with_rack]⟩)]
          rfl
        simp only [hdt, exbind_ok] at h
        cases hnt : ({ g with game_state := { g.game_state with
            players := replaceFirstById g.game_state.players
              (p.with_rack (p.rack.with_new_tile (pick g.game_state.pile))),
            pile := g.game_state.pile.erase (pick g.game_state.pile) } }
          : Game).with_next_turn p with
        | error e => rw [hnt, exbind_error] at h; exact absurd h (by simp)
        | ok g₃ =>
          simp only [hnt, exbind_ok] at h
          injection h with h
          injection h with h1 h2
          subst h2
          have htile : pick g.game_state.pile ∈ g.game_state.pile := hpick _ hpile
          have hpcoe : (g.game_state.pile : Multiset Nat) =
              (pick g.game_state.pile) ::ₘ
                ↑(g.game_state.pile.erase (pick g.game_state.pile)) :=
            Multiset.coe_eq_coe.mpr (List.perm_cons_erase htile)
          have hrsplit : racksOf g.game_state.players =
              ↑p.rack.tiles + racksOf (erasePId p.id g.game_state.players) :=
            racksOf_split hpmem hwf
          have hrrep : racksOf (replaceFirstById g.game_state.players
                (p.with_rack (p.rack.with_new_tile (pick g.game_state.pile)))) =
              ↑(p.rack.with_new_tile (pick g.game_state.pile)).tiles +
              racksOf (erasePId p.id g.game_state.players) :=
            racksOf_replace hpmem rfl hwf
          have hntc : ((p.rack.with_new_tile (pick g.game_state.pile)).tiles :
                Multiset Nat) =
              ↑p.rack.tiles + {pick g.game_state.pile} := by
            show ((Tileset.create (p.rack.tiles ++ [pick g.game_state.pile])).tiles :
              Multiset Nat) = _
            rw [create_tiles_coe, ← Multiset.coe_singleton, Multiset.coe_add]
          have hwf₂ : WF { g with game_state := { g.game_state with
              players := replaceFirstById g.game_state.players
                (p.with_rack (p.rack.with_new_tile (pick g.game_state.pile))),
              pile := g.game_state.pile.erase (pick g.game_state.pile) } } := by
            show ((replaceFirstById g.game_state.players
              (p.with_rack (p.rack.with_new_tile (pick g.game_state.pile)))).map
                Player.id).Nodup
            rw [map_id_replaceFirstById]
            exact hwf
          have hcur₂ : currentView { g with game_state := { g.game_state with
              players := replaceFirstById g.game_state.players
                (p.with_rack (p.rack.with_new_tile (pick g.game_state.pile))),
              pile := g.game_state.pile.erase (pick g.game_state.pile) } } = deck := by
            show boardM g.game_state.board +
              ↑(g.game_state.pile.erase (pick g.game_state.pile)) +
              racksOf (replaceFirstById g.game_state.players
                (p.with_rack (p.rack.with_new_tile (pick g.game_state.pile)))) = deck
            rw [hrrep, hntc]
            have hthis := hinv.1
            unfold currentView at hthis
            rw [hrsplit, hpcoe, ← Multiset.singleton_add] at hthis
            rw [← hthis]
            abel
          exact with_next_turn_conserves hwf₂ hcur₂ hnt

/-- A successful disconnect conserves tiles when at least two players
remain and, if the leaver held the turn, the current board still matches
the starting board and the turn order is well formed. -/
theorem disconnect_conserves {g g' : Game} {uid : Nat} {ot : Option Turn}
    {shuffle : List Nat → List Nat} {p : Player}
    (hshuf : ∀ l, (shuffle l).Perm l)
    (hwf : WF g) (hinv : Conserved g)
    (hfindp : g.player_for_user_id uid = .ok p)
    (h : GamesService.disconnect g uid shuffle = .ok (g', ot))
    (hlen : (g.game_state.players.filter (fun q => decide (q.id ≠ p.id))).length ≠ 1)
    (hturn : g.turn.player_id = p.id →
      boardM g.game_state.board = boardM g.turn.starting_board ∧
      g.turn_order.Nodup ∧ 2 ≤ g.turn_order.length ∧ p.user_id ∈ g.turn_order ∧
      (∀ u ∈ g.turn_order, u ≠ p.user_id →
        (g.game_state.players.find? (fun r => decide (r.user_id = u))).isSome = true)) :
    Conserved g' ∧ WF g' := by
  unfold GamesService.disconnect at h
  split at h
  · exact absurd h (by simp)
  · rename_i hws
    have hwnone : g.winner = none := by
      cases hwn : g.winner with
      | none => rfl
      | some w => exact absurd (by rw [hwn]; rfl) hws
    simp only [hfindp, exbind_ok] at h
    unfold Game.with_disconnected_player at h
    replace h : (if (g.game_state.players.filter
          (fun q => decide (q.id ≠ p.id))).length = 1 then
        match (g.game_state.players.filter (fun q => decide (q.id ≠ p.id))).head? with
        | some w => Except.ok (({ g with
            game_state := { g.game_state with
              players := g.game_state.players.filter (fun q => decide (q.id ≠ p.id)) },
            winner := some w } : Game), (none : Option Turn))
        | none => Except.error Err.value_error
      else if g.turn.player_id = p.id then do
        let next ← g.player_after p
        Except.ok (({ g with
          turn := { id := 0, game_id := g.id, player_id := next.id,
                    starting_rack := next.rack,
                    starting_board := g.turn.starting_board,
                    moves := [], revision := 0 },
          game_state := { g.game_state with
            players := g.game_state.players.filter (fun q => decide (q.id ≠ p.id)),
            pile := shuffle (g.game_state.pile ++ p.rack.tiles),
            board := g.turn.starting_board },
          turn_order := g.turn_order.filter (fun u => decide (u ≠ p.user_id)) } : Game),
          some { id := 0, game_id := g.id, player_id := next.id,
                 starting_rack := next.rack,
                 starting_board := g.turn.starting_board,
                 moves := [], revision := 0 })
      else Except.ok (({ g with
        game_state := { g.game_state with
          players := g.game_state.players.filter (fun q => decide (q.id ≠ p.id)),
          pile := shuffle (g.game_state.pile ++ p.rack.tiles) },
        turn_order := g.turn_order.filter (fun u => decide (u ≠ p.user_id)) } : Game),
        (none : Option Turn))) = .ok (g', ot) := h
    split at h
    · rename_i hone
      exact absurd hone hlen
    · rename_i hone
      have hf : g.game_state.players.find? (fun q => decide (q.user_id = uid)) = some p :=
        player_for_user_id_ok hfindp
      have hpmem : p ∈ g.game_state.players := List.mem_of_find?_eq_some hf
      have hrsplit : racksOf g.game_state.players =
          ↑p.rack.tiles + racksOf (erasePId p.id g.game_state.players) :=
        racksOf_split hpmem hwf
      have hpilecoe : (shuffle (g.game_state.pile ++ p.rack.tiles) : Multiset Nat) =
          ↑g.game_state.pile + ↑p.rack.tiles := by
        rw [Multiset.coe_eq_coe.mpr (hshuf _), Multiset.coe_add]
      have hwfres : ((erasePId p.id g.game_state.players).map Player.id).Nodup :=
        List.Nodup.sublist (List.Sublist.map _ (List.filter_sublist _)) hwf
      have hcv : boardM g.game_state.board + (↑g.game_state.pile + ↑p.rack.tiles) +
          racksOf (erasePId p.id g.game_state.players) = deck := by
        have hthis := hinv.1
        unfold currentView at hthis
        rw [hrsplit] at hthis
        rw [← hthis]
        abel
      split at h
      · rename_i hpidp
        obtain ⟨hbeq, hndord, hlen2, hmemord, hcov⟩ := hturn hpidp
        cases hpa : g.player_after p with
        | error e => rw [hpa, exbind_error] at h; exact absurd h (by simp)
        | ok next =>
          simp only [hpa, exbind_ok] at h
          injection h with h
          injection h with h1 h2
          subst h1
          have hplayers : ∀ u ∈ g.turn_order, u ≠ p.user_id →
              ∃ q, g.game_state.players.find?
                (fun r => decide (r.user_id = u)) = some q :=
            fun u hu hne => Option.isSome_iff_exists.mp (hcov u hu hne)
          obtain ⟨nuid, next₀, hnio, hnuidne, hfind₀, hpa₀⟩ :=
            player_after_ok g p hndord hmemord hlen2 hplayers
          rw [hpa] at hpa₀
          injection hpa₀ with hnn
          subst hnn
          have hnu : next.user_id = nuid := by
            have := List.find?_some hfind₀
            simpa using this
          have hnextmem : next ∈ g.game_state.players :=
            List.mem_of_find?_eq_some hfind₀
          have hnextne : next ≠ p := fun hEq => hnuidne (by rw [← hnu, hEq])
          have hnid : next.id ≠ p.id := fun hEq =>
            hnextne (List.inj_on_of_nodup_map hwf hnextmem hpmem hEq)
          have hnmem₂ : next ∈ erasePId p.id g.game_state.players :=
            List.mem_filter.mpr ⟨hnextmem, by simp [hnid]⟩
          have hsplit₂ : racksOf (erasePId p.id g.game_state.players) =
              ↑next.rack.tiles +
              racksOf (erasePId next.id (erasePId p.id g.game_state.players)) :=
            racksOf_split hnmem₂ hwfres
          refine ⟨⟨?_, ?_⟩, ?_⟩
          · show boardM g.turn.starting_board +
              ↑(shuffle (g.game_state.pile ++ p.rack.tiles)) +
              racksOf (erasePId p.id g.game_state.players) = deck
            rw [hpilecoe, ← hbeq]
            exact hcv
          · intro hwin
            refine ⟨?_, ?_⟩
            · show boardM g.turn.starting_board +
                ↑(shuffle (g.game_state.pile ++ p.rack.tiles)) +
                ↑next.rack.tiles +
                racksOf (erasePId next.id (erasePId p.id g.game_state.players)) = deck
              rw [hpilecoe, ← hbeq, ← hcv, hsplit₂]
              abel
            · intro mv hmv
              exact absurd hmv (List.not_mem_nil mv)
          · show ((erasePId p.id g.game_state.players).map Player.id).Nodup
            exact hwfres
      · rename_i hpidp
        injection h with h
        injection h with h1 h2
        subst h1
        have hmem₂ : p ∈ erasePId g.turn.player_id g.game_state.players :=
          List.mem_filter.mpr ⟨hpmem, by
            simp only [decide_eq_true_eq]
            exact fun hEq => hpidp hEq.symm⟩
        have hnd₂ : ((erasePId g.turn.player_id g.game_state.players).map
            Player.id).Nodup :=
          List.Nodup.sublist (List.Sublist.map _ (List.filter_sublist _)) hwf
        have hsplit₂ : racksOf (erasePId g.turn.player_id g.game_state.players) =
            ↑p.rack.tiles +
            racksOf (erasePId p.id
              (erasePId g.turn.player_id g.game_state.players)) :=
          racksOf_split hmem₂ hnd₂
        obtain ⟨hstart, hmoves⟩ := hinv.2 hwnone
        refine ⟨⟨?_, ?_⟩, ?_⟩
        · show boardM g.game_state.board +
            ↑(shuffle (g.game_state.pile ++ p.rack.tiles)) +
            racksOf (erasePId p.id g.game_state.players) = deck
          rw [hpilecoe]
          exact hcv
        · intro hwin
          refine ⟨?_, ?_⟩
          · have hstart' : boardM g.turn.starting_board + ↑g.game_state.pile +
                ↑g.turn.starting_rack.tiles +
                racksOf (erasePId g.turn.player_id g.game_state.players) = deck :=
              hstart
            rw [hsplit₂] at hstart'
            show boardM g.turn.starting_board +
              ↑(shuffle (g.game_state.pile ++ p.rack.tiles)) +
              ↑g.turn.starting_rack.tiles +
              racksOf (erasePId g.turn.player_id
                (erasePId p.id g.game_state.players)) = deck
            rw [hpilecoe, erasePId_comm, ← hstart']
            abel
          · intro mv hmv
            replace hmv : mv ∈ g.turn.moves := hmv
            have hm' : boardM mv.board + ↑g.game_state.pile + ↑mv.rack.tiles +
                racksOf (erasePId g.turn.player_id g.game_state.players) = deck :=
              hmoves mv hmv
            rw [hsplit₂] at hm'
            show boardM mv.board +
              ↑(shuffle (g.game_state.pile ++ p.rack.tiles)) +
              ↑mv.rack.tiles +
              racksOf (erasePId g.turn.player_id
                (erasePId p.id g.game_state.players)) = deck
            rw [hpilecoe, erasePId_comm, ← hm']
            abel
        · show ((erasePId p.id g.game_state.players).map Player.id).Nodup
          exact List.Nodup.sublist (List.Sublist.map _ (List.filter_sublist _)) hwf

/-- **C1 (amended).** Per-operation tile conservation: on a well-formed
(`WF`: duplicate-free player ids) conserved game, `move`, `undo`, `redo`,
`end_turn` and `draw` (with a pile-membership `pick`) preserve conservation
of the 106-tile deck across board, pile, racks and turn snapshots;
`disconnect` (with a permutation `shuffle`) preserves it provided more than
one player remains and, when the leaver holds the turn, the current board
still equals the starting board as a multiset and the turn order is well
formed.  Outside these provisos the deck is not conserved: the last
remaining player wins without the leaver's rack returning, and a mid-turn
holder disconnect drops the tiles played this turn. -/
theorem tile_conservation (dict : List (List Nat)) (g : Game) (uid : Nat) :
    (∀ (b : List (List Nat)) (g' : Game), WF g → Conserved g →
      GamesService.move g uid b = .ok g' → Conserved g' ∧ WF g') ∧
    (∀ g' : Game, WF g → Conserved g →
      GamesService.undo g uid = .ok g' → Conserved g' ∧ WF g') ∧
    (∀ g' : Game, WF g → Conserved g →
      GamesService.redo g uid = .ok g' → Conserved g' ∧ WF g') ∧
    (∀ g' : Game, WF g → Conserved g →
      GamesService.end_turn dict g uid = .ok g' → Conserved g' ∧ WF g') ∧
    (∀ (pick : List Nat → Nat) (t : Nat) (g' : Game),
      (∀ l, l ≠ [] → pick l ∈ l) → WF g → Conserved g →
      GamesService.draw g uid pick = .ok (t, g') → Conserved g' ∧ WF g') ∧
    (∀ (shuffle : List Nat → List Nat) (g' : Game) (ot : Option Turn) (p : Player),
      (∀ l : List Nat, (shuffle l).Perm l) → WF g → Conserved g →
      g.player_for_user_id uid = .ok p →
      GamesService.disconnect g uid shuffle = .ok (g', ot) →
      (g.game_state.players.filter (fun q => decide (q.id ≠ p.id))).length ≠ 1 →
      (g.turn.player_id = p.id →
        boardM g.game_state.board = boardM g.turn.starting_board ∧
        g.turn_order.Nodup ∧ 2 ≤ g.turn_order.length ∧ p.user_id ∈ g.turn_order ∧
        (∀ u ∈ g.turn_order, u ≠ p.user_id →
          (g.game_state.players.find? (fun r => decide (r.user_id = u))).isSome
            = true)) →
      Conserved g' ∧ WF g') :=
  ⟨fun _ _ hwf hinv h => move_conserves hwf hinv h,
   fun _ hwf hinv h => undo_conserves hwf hinv h,
   fun _ hwf hinv h => redo_conserves hwf hinv h,
   fun _ hwf hinv h => end_turn_conserves hwf hinv h,
   fun _ _ _ hpick hwf hinv h => draw_conserves hpick hwf hinv h,
   fun _ _ _ _ hshuf hwf hinv hfindp h hlen hturn =>
     disconnect_conserves hshuf hwf hinv hfindp h hlen hturn⟩

/-- A placeholder game used as the default of `Except.toOption.getD`. -/
def emptyGame : Game where
  id := 0
  gameroom_id := 0
  game_state := { id := 0, game_id := 0, players := [], board := ⟨[]⟩, pile := [] }
  turn := { id := 0, game_id := 0, player_id := 0, starting_rack := ⟨[]⟩,
            starting_board := ⟨[]⟩, moves := [], revision := 0 }
  turn_order := []
  made_meld := []
  winner := none

/-- The three-user gameroom of the disconnect chain below. -/
def grD : Gameroom :=
  { id := 50, name := "d", owner_id := 1,
    users := [{ id := 1, name := "u1" }, { id := 2, name := "u2" },
              { id := 3, name := "u3" }],
    status := .starting }

/-- The freshly started game (identity shuffles, head picks). -/
def gD0 : Game := (start_game id id (fun l => l.headD 0) grD 1).toOption.getD emptyGame

/-- After the holder of the first turn plays the single tile 0. -/
def gD1 : Game := (GamesService.move gD0 1 [[0]]).toOption.getD emptyGame

/-- After that holder disconnects mid-turn. -/
def gD2p : Game × Option Turn :=
  (GamesService.disconnect gD1 1 id).toOption.getD (emptyGame, none)

/-- Counterexample to C1 as stated: on a reachable game, the turn holder's
mid-turn disconnect returns their current (already reduced) rack to the
pile while restoring the starting board, so the tile played this turn
leaves the game entirely: the resulting current view no longer covers the
deck, although the game before the disconnect was conserved. -/
theorem disconnect_breaks_conservation :
    start_game id id (fun l => l.headD 0) grD 1 = .ok gD0 ∧
    GamesService.move gD0 1 [[0]] = .ok gD1 ∧
    GamesService.disconnect gD1 1 id = .ok gD2p ∧
    (gD1.player_for_user_id 1).toOption.map Player.id = some gD1.turn.player_id ∧
    Conserved gD0 ∧ WF gD0 ∧ Conserved gD1 ∧ WF gD1 ∧
    Multiset.count 0 deck = 1 ∧
    Multiset.count 0 (currentView gD2p.1) = 0 ∧
    currentView gD2p.1 ≠ deck := by
  refine ⟨?_, ?_, ?_, ?_, ?_, ?_, ?_, ?_, ?_, ?_, ?_⟩ <;> decide

/-- A mid-turn three-player game holding the full deck: the holder has
played tile 0 this turn (one ledger move at revision 1). -/
def gK : Game where
  id := 60
  gameroom_id := 61
  game_state :=
    { id := 62, game_id := 60,
      players := [{ id := 1, name := "A", rack := ⟨List.range' 1 13⟩, user_id := 10 },
                  { id := 2, name := "B", rack := ⟨List.range' 14 14⟩, user_id := 20 },
                  { id := 3, name := "C", rack := ⟨List.range' 28 14⟩, user_id := 30 }],
      board := ⟨[⟨[0]⟩]⟩, pile := List.range' 42 64 }
  turn :=
    { id := 100, game_id := 60, player_id := 1,
      starting_rack := ⟨List.range' 0 14⟩, starting_board := ⟨[]⟩,
      moves := [{ id := 0, board := ⟨[⟨[0]⟩]⟩, rack := ⟨List.range' 1 13⟩,
                  revision := 1, turn_id := 100 }],
      revision := 1 }
  turn_order := [10, 20, 30]
  made_meld := [10]
  winner := none

/-- The same game at the start of the turn (revision 0, ledger kept). -/
def gKr : Game where
  id := 60
  gameroom_id := 61
  game_state :=
    { id := 62, game_id := 60,
      players := [{ id := 1, name := "A", rack := ⟨List.range' 0 14⟩, user_id := 10 },
                  { id := 2, name := "B", rack := ⟨List.range' 14 14⟩, user_id := 20 },
                  { id := 3, name := "C", rack := ⟨List.range' 28 14⟩, user_id := 30 }],
      board := ⟨[]⟩, pile := List.range' 42 64 }
  turn :=
    { id := 100, game_id := 60, player_id := 1,
      starting_rack := ⟨List.range' 0 14⟩, starting_board := ⟨[]⟩,
      moves := [{ id := 0, board := ⟨[⟨[0]⟩]⟩, rack := ⟨List.range' 1 13⟩,
                  revision := 1, turn_id := 100 }],
      revision := 0 }
  turn_order := [10, 20, 30]
  made_meld := [10]
  winner := none

/-- `gK` after a further move. -/
def gKm : Game := (GamesService.move gK 10 [[0], [1]]).toOption.getD emptyGame

/-- `gK` after an undo. -/
def gKu : Game := (GamesService.undo gK 10).toOption.getD emptyGame

/-- `gKr` after a redo. -/
def gKrd : Game := (GamesService.redo gKr 10).toOption.getD emptyGame

/-- `gK` after ending the turn. -/
def gKe : Game := (GamesService.end_turn [[0]] gK 10).toOption.getD emptyGame

/-- `gKr` after a draw. -/
def gKd : Game :=
  ((GamesService.draw gKr 10 (fun l => l.headD 0)).toOption.map Prod.snd).getD emptyGame

/-- `gK` after a non-holder disconnect. -/
def gKx : Game :=
  ((GamesService.disconnect gK 20 id).toOption.map Prod.fst).getD emptyGame

/-- Witness for the amended C1 on concrete games: all six operations are
exercised successfully and each result is conserved and well formed. -/
theorem tile_conservation_witness :
    (Conserved gKm ∧ WF gKm) ∧ (Conserved gKu ∧ WF gKu) ∧
    (Conserved gKrd ∧ WF gKrd) ∧ (Conserved gKe ∧ WF gKe) ∧
    (Conserved gKd ∧ WF gKd) ∧ (Conserved gKx ∧ WF gKx) := by
  obtain ⟨hmv, hun, -, het, -, -⟩ := tile_conservation [[0]] gK 10
  obtain ⟨-, -, hrd, -, hdr, -⟩ := tile_conservation [[0]] gKr 10
  obtain ⟨-, -, -, -, -, hdc⟩ := tile_conservation [[0]] gK 20
  refine ⟨?_, ?_, ?_, ?_, ?_, ?_⟩
  · exact hmv [[0], [1]] gKm (by decide) (by decide) (by decide)
  · exact hun gKu (by decide) (by decide) (by decide)
  · exact hrd gKrd (by decide) (by decide) (by decide)
  · exact het gKe (by decide) (by decide) (by decide)
  · exact hdr (fun l => l.headD 0) 42 gKd headD_mem (by decide) (by decide) (by decide)
  · exact hdc id gKx none
      { id := 2, name := "B", rack := ⟨List.range' 14 14⟩, user_id := 20 }
      (fun l => List.Perm.refl l) (by decide) (by decide) (by decide) (by decide)
      (by decide) (fun hEq => absurd hEq (by decide))

end Tuicub
